import Mathlib

/-!
Verification development for the fixture-ingest sanitization engine of the
Article-Downloader repository (source: src/core/sanitizer.ts and src/core/ingest.ts,
given as src/unnamed/part_005).

The TypeScript code is shallowly embedded: strings are Lean `String`s, the regular
expressions of the source are translated into explicit executable scanners over
`List Char`, stateful placeholder assignment becomes explicit state passing of a
`PlaceholderStore`, and thrown JavaScript exceptions become an `Except JsError` result.
External collaborators (the cheerio HTML parser, the WHATWG URL parser, the
filesystem and the clock) are modelled: a parsed document is a flat list of element
records, the parse/serialize round trip is the identity on that representation
(the spec's own §4.2 path-stability requirement), the URL query string is split at
the first question mark and on ampersands without percent decoding, the filesystem
is an association list threaded through the ingest orchestrator, and the timestamp
is a parameter.
-/

/-! ## Character classes (JavaScript regex semantics, ASCII range)

JavaScript's non-unicode-flag regexes define a word character as [A-Za-z0-9_];
the whitespace class is modelled by its ASCII members plus NBSP.
-/

/-- Word character of a JavaScript regex, as used by the \b assertion. -/
def isWordChar (c : Char) : Bool :=
  c.isAlpha || c.isDigit || c == '_'

/-- Character class [A-Za-z0-9._-] used by the token-shaped patterns of the source. -/
def isTokenChar (c : Char) : Bool :=
  c.isAlpha || c.isDigit || c == '.' || c == '_' || c == '-'

/-- Whitespace as matched by the JavaScript \s class and by String.prototype.trim,
modelled on its ASCII members plus the no-break space. -/
def isJsSpace (c : Char) : Bool :=
  c == ' ' || c == '\t' || c == '\n' || c == '\r' || c == '\x0b' || c == '\x0c' || c == '\xa0'

/-- Lowercase character [a-z]. -/
def isLowerAlpha (c : Char) : Bool :=
  'a' ≤ c && c ≤ 'z'

/-- Uppercase character [A-Z]. -/
def isUpperAlpha (c : Char) : Bool :=
  'A' ≤ c && c ≤ 'Z'

/-- Decimal digit [0-9]. -/
def isDigitChar (c : Char) : Bool :=
  c.isDigit

/-- Model of String.prototype.trim on the character list. -/
def jsTrimList (cs : List Char) : List Char :=
  ((cs.dropWhile isJsSpace).reverse.dropWhile isJsSpace).reverse

/-- Model of String.prototype.trim. -/
def jsTrim (s : String) : String :=
  ⟨jsTrimList s.data⟩

/-- Case-insensitive character comparison, as under a regex /i flag (ASCII folding). -/
def lcEq (a b : Char) : Bool :=
  a.toLower == b.toLower

/-- Consume a literal at the head of the input; some rest on success.
The ci flag selects case-insensitive comparison. -/
def stripLit (ci : Bool) : List Char → List Char → Option (List Char)
  | [], cs => some cs
  | _ :: _, [] => none
  | l :: ls, c :: cs => if (if ci then lcEq l c else l == c) then stripLit ci ls cs else none

/-- Does the literal occur at the head of the input? -/
def subAt (ci : Bool) (lit cs : List Char) : Bool :=
  (stripLit ci lit cs).isSome

/-- Substring search: does the literal occur anywhere in the input? -/
def containsLit (ci : Bool) (lit : List Char) : List Char → Bool
  | [] => lit.isEmpty
  | c :: rest => subAt ci lit (c :: rest) || containsLit ci lit rest

/-- The \b-bounded, case-insensitive occurrence test for one alternative of a
pattern such as /\b(name|author|user)\b/i, checked at the current position. The
literal is assumed to start and end with word characters. -/
def wordLitAt (lit : List Char) (prev : Option Char) (cs : List Char) : Bool :=
  (match prev with
   | none => true
   | some p => !isWordChar p) &&
  (match stripLit true lit cs with
   | none => false
   | some [] => true
   | some (r :: _) => !isWordChar r)

/-- Scan for a \b-bounded, case-insensitive occurrence of the literal. -/
def containsWordCi (lit : List Char) : Option Char → List Char → Bool
  | _, [] => false
  | prev, c :: rest => wordLitAt lit prev (c :: rest) || containsWordCi lit (some c) rest

/-- Does the input contain a run of at least n consecutive characters from class p?
Models a contains test for a regex piece such as /\d{9,}/ without boundary assertions. -/
def hasRun (p : Char → Bool) (n : Nat) : List Char → Bool
  | [] => decide (n = 0)
  | c :: cs => decide (((c :: cs).takeWhile p).length ≥ n) || hasRun p n cs

/-! ## Decimal rendering (model of JavaScript String(n)) and padStart -/

/-- One decimal digit as a character. -/
def digitChar : Nat → Char
  | 0 => '0' | 1 => '1' | 2 => '2' | 3 => '3' | 4 => '4'
  | 5 => '5' | 6 => '6' | 7 => '7' | 8 => '8' | _ => '9'

/-- Decimal digit rendering with structural fuel (the fuel keeps the recursion
kernel-evaluable; n + 1 units always suffice). -/
def natDigitsFuel : Nat → Nat → List Char
  | 0, _ => []
  | f + 1, n =>
    if n < 10 then [digitChar n]
    else natDigitsFuel f (n / 10) ++ [digitChar (n % 10)]

/-- Decimal digit list of a natural number, most significant first;
models the JavaScript String(n) conversion for counters. -/
def natDigits (n : Nat) : List Char :=
  natDigitsFuel (n + 1) n

/-- Model of padStart(3, "0") on the digit list. -/
def padLeft3 (cs : List Char) : List Char :=
  if cs.length ≥ 3 then cs else List.replicate (3 - cs.length) '0' ++ cs

/-- Decimal decoding, used to prove that placeholder tokens are injective. -/
def decodeDecimal (cs : List Char) : Nat :=
  cs.foldl (fun a c => 10 * a + (c.toNat - 48)) 0

/-! ## Placeholder store (source: createPlaceholderStore / nextPlaceholder) -/

/-- The closed category enumeration of SanitizationCategory in types.ts. -/
inductive SanitizationCategory where
  | person
  | content_id
  | token
  | cookie
  | tracking
deriving DecidableEq, Repr

/-- The per-invocation placeholder state: one counter per category plus the
memoization map, an insertion-ordered association list modelling the JS Map. -/
structure PlaceholderStore where
  personCounter : Nat
  contentIdCounter : Nat
  tokenCounter : Nat
  cookieCounter : Nat
  trackingCounter : Nat
  seen : List (String × String)
deriving DecidableEq, Repr

/-- Source: createPlaceholderStore — all counters start at zero, empty memo. -/
def createPlaceholderStore : PlaceholderStore :=
  { personCounter := 0, contentIdCounter := 0, tokenCounter := 0,
    cookieCounter := 0, trackingCounter := 0, seen := [] }

/-- Read of store.counters[category]. -/
def getCounter (s : PlaceholderStore) : SanitizationCategory → Nat
  | .person => s.personCounter
  | .content_id => s.contentIdCounter
  | .token => s.tokenCounter
  | .cookie => s.cookieCounter
  | .tracking => s.trackingCounter

/-- The increment store.counters[category] += 1. -/
def bumpCounter (c : SanitizationCategory) (s : PlaceholderStore) : PlaceholderStore :=
  match c with
  | .person => { s with personCounter := s.personCounter + 1 }
  | .content_id => { s with contentIdCounter := s.contentIdCounter + 1 }
  | .token => { s with tokenCounter := s.tokenCounter + 1 }
  | .cookie => { s with cookieCounter := s.cookieCounter + 1 }
  | .tracking => { s with trackingCounter := s.trackingCounter + 1 }

/-- The TypeScript string key of the category enumeration. -/
def categoryName : SanitizationCategory → String
  | .person => "person"
  | .content_id => "content_id"
  | .token => "token"
  | .cookie => "cookie"
  | .tracking => "tracking"

/-- The placeholder prefix chosen by nextPlaceholder for each category. -/
def categoryPrefix : SanitizationCategory → String
  | .person => "PERSON"
  | .content_id => "CID"
  | .token => "TOKEN"
  | .cookie => "COOKIE"
  | .tracking => "TRACK"

/-- The memo key template of nextPlaceholder. -/
def catKey (c : SanitizationCategory) (raw : String) : String :=
  categoryName c ++ "::" ++ raw

/-- The placeholder token template of nextPlaceholder:
category prefix, underscore, counter value zero-padded with padStart(3, "0"). -/
def fmtPlaceholder (c : SanitizationCategory) (n : Nat) : String :=
  categoryPrefix c ++ "_" ++ String.mk (padLeft3 (natDigits n))

/-- JS Map.get on the memo list. -/
def seenLookup (k : String) (seen : List (String × String)) : Option String :=
  (seen.find? (fun e => e.1 == k)).map (·.2)

/-- Source: nextPlaceholder(category, store, raw). Returns the memoized placeholder
when the category::raw key was seen before, otherwise increments the category
counter, formats a fresh token and records it. -/
def nextPlaceholder (category : SanitizationCategory) (store : PlaceholderStore)
    (raw : String) : String × PlaceholderStore :=
  match seenLookup (catKey category raw) store.seen with
  | some existing => (existing, store)
  | none =>
    (fmtPlaceholder category (getCounter (bumpCounter category store) category),
      { bumpCounter category store with
        seen := (bumpCounter category store).seen ++
          [(catKey category raw,
            fmtPlaceholder category (getCounter (bumpCounter category store) category))] })

/-- One sanitization run: the store obtained after an arbitrary sequence of
nextPlaceholder requests starting from the fresh store. -/
def runStore (reqs : List (SanitizationCategory × String)) : PlaceholderStore :=
  reqs.foldl (fun s r => (nextPlaceholder r.1 s r.2).2) createPlaceholderStore

/-! ## Value classifier (source: classifyValue) -/

/-- The closed ValueClass enumeration of types.ts. -/
inductive ValueClass where
  | empty
  | plain_text
  | url
  | long_numeric_id
  | token_like
  | timestamp_like
  | email_like
  | path_like
deriving DecidableEq, Repr

/-- The TypeScript string of a ValueClass, used in diff messages. -/
def className : ValueClass → String
  | .empty => "empty"
  | .plain_text => "plain_text"
  | .url => "url"
  | .long_numeric_id => "long_numeric_id"
  | .token_like => "token_like"
  | .timestamp_like => "timestamp_like"
  | .email_like => "email_like"
  | .path_like => "path_like"

/-- Test of /^[A-Za-z]:\\/ or /^\//: Windows drive path or absolute POSIX path. -/
def pathTest (cs : List Char) : Bool :=
  cs.head? == some '/' ||
  ((cs.head?.map Char.isAlpha).getD false && (cs.drop 1).head? == some ':' &&
    (cs.drop 2).head? == some '\\')

/-- Test of /^https?:\/\//i or /^\/\//: absolute or protocol-relative URL start. -/
def urlTest (cs : List Char) : Bool :=
  subAt true "http://".data cs || subAt true "https://".data cs || subAt false "//".data cs

/-- Test of /^https?:\/\//i alone (used by sanitizeUrlLike and the token24 guard). -/
def startsHttpCi (cs : List Char) : Bool :=
  subAt true "http://".data cs || subAt true "https://".data cs

/-- Test of /^[0-9]{9,}$/. -/
def longNumericTest (cs : List Char) : Bool :=
  decide (cs.length ≥ 9) && cs.all isDigitChar

/-- Member of the regex character class [0-9:.+-Z]: since +-Z is a range inside the
class, the class is exactly the code points from 43 to 90. -/
def isTsTailChar (c : Char) : Bool :=
  decide (43 ≤ c.toNat) && decide (c.toNat ≤ 90)

/-- Strip exactly k decimal digits. -/
def stripDigits : Nat → List Char → Option (List Char)
  | 0, cs => some cs
  | _ + 1, [] => none
  | k + 1, c :: cs => if isDigitChar c then stripDigits k cs else none

/-- Test of /^[0-9]{4}-[0-9]{2}-[0-9]{2}(?:[T\s][0-9:.+-Z]+)?$/. -/
def timestampTest (cs : List Char) : Bool :=
  match stripDigits 4 cs with
  | none => false
  | some rest =>
    match rest with
    | '-' :: rest =>
      match stripDigits 2 rest with
      | none => false
      | some rest =>
        match rest with
        | '-' :: rest =>
          match stripDigits 2 rest with
          | none => false
          | some [] => true
          | some (t :: tail) =>
            (t == 'T' || isJsSpace t) && !tail.isEmpty && tail.all isTsTailChar
        | _ => false
    | _ => false

/-- Character admissible in the email pieces [^@\s]. -/
def emailPieceChar (c : Char) : Bool :=
  !(c == '@' || isJsSpace c)

/-- Test of /^[^@\s]+@[^@\s]+\.[^@\s]+$/: exactly one at sign, a nonempty
space-free local part, and a dot strictly inside the space-free domain part. -/
def emailTest (cs : List Char) : Bool :=
  let localPart := cs.takeWhile (· ≠ '@')
  if localPart.length == cs.length then false
  else
    let dom := cs.drop (localPart.length + 1)
    !localPart.isEmpty && localPart.all emailPieceChar && dom.all emailPieceChar &&
      ((dom.drop 1).dropLast).contains '.'

/-- Is the zero-width position between prev and the head of cs a \b word boundary? -/
def boundaryBefore (prev : Option Char) (cs : List Char) : Bool :=
  match cs.head? with
  | none => false
  | some c => (match prev with | none => false | some p => isWordChar p) != isWordChar c

/-- End-of-match \b check: the match covers cs.take l; the boundary holds between
the last matched character and the following character (end of input is non-word). -/
def runEndBoundaryOk (cs : List Char) (l : Nat) : Bool :=
  match (cs.take l).getLast?, (cs.drop l).head? with
  | some lastC, none => isWordChar lastC
  | some lastC, some nxt => isWordChar lastC != isWordChar nxt
  | none, _ => false

/-- Is there a match length l with lo ≤ l ≤ hi whose end position is a word boundary? -/
def existsGoodLen (cs : List Char) (lo hi : Nat) : Bool :=
  (List.range' lo (hi + 1 - lo)).any (fun l => runEndBoundaryOk cs l)

/-- Countdown kernel of bestGoodLen: the k-th candidate from above is lo + k. -/
def bestGoodLenAux (cs : List Char) (lo : Nat) : Nat → Option Nat
  | 0 => none
  | k + 1 => if runEndBoundaryOk cs (lo + k) then some (lo + k) else bestGoodLenAux cs lo k

/-- Greedy choice: the largest match length l with lo ≤ l ≤ hi whose end position
is a word boundary, as regex backtracking would select. -/
def bestGoodLen (cs : List Char) (lo hi : Nat) : Option Nat :=
  if hi < lo then none else bestGoodLenAux cs lo (hi + 1 - lo)

/-- Match attempt at the current position for
/\b(ntn_[A-Za-z0-9._-]{8,}|[A-Za-z0-9._-]{24,})\b/ (token_like rule). -/
def tokenLikeAt (prev : Option Char) (cs : List Char) : Bool :=
  boundaryBefore prev cs &&
  ((subAt false "ntn_".data cs &&
      existsGoodLen cs (4 + 8) (4 + ((cs.drop 4).takeWhile isTokenChar).length)) ||
    existsGoodLen cs 24 ((cs.takeWhile isTokenChar).length))

/-- Scan of the token_like pattern over the whole input. -/
def tokenLikeScan : Option Char → List Char → Bool
  | _, [] => false
  | prev, c :: rest => tokenLikeAt prev (c :: rest) || tokenLikeScan (some c) rest

/-- Test of /\b(ntn_[A-Za-z0-9._-]{8,}|[A-Za-z0-9._-]{24,})\b/. -/
def tokenLikeTest (cs : List Char) : Bool :=
  tokenLikeScan none cs

/-- Source: classifyValue(value) — total, order-sensitive classification of a string,
rules checked in priority order on the trimmed input. -/
def classifyValue (value : String) : ValueClass :=
  let trimmed := jsTrimList value.data
  if trimmed.isEmpty then .empty
  else if pathTest trimmed then .path_like
  else if urlTest trimmed then .url
  else if longNumericTest trimmed then .long_numeric_id
  else if timestampTest trimmed then .timestamp_like
  else if emailTest trimmed then .email_like
  else if tokenLikeTest trimmed then .token_like
  else .plain_text

/-! ## Generic global-replace engine

Models String.prototype.replace with a /g regex and a replacer callback: the scan
walks the original string left to right, each successful match consumes its
characters (subsequent \b assertions see the original characters, as in JS, so the
previous-character state is the last matched original character), and the replacer
may thread the placeholder store.
-/

/-- Global replace with structural fuel (each step consumes at least one input
character, so length + 1 units always suffice; the fuel keeps the recursion
kernel-evaluable): tryAt yields the match length at the current position (with the
previous original character for \b), mkRepl maps the matched characters to the
replacement and the updated store. A some 0 answer is treated as no match. -/
def runReplaceFuel (tryAt : Option Char → List Char → Option Nat)
    (mkRepl : List Char → PlaceholderStore → List Char × PlaceholderStore) :
    Nat → Option Char → List Char → PlaceholderStore → List Char × PlaceholderStore
  | 0, _, cs, st => (cs, st)
  | _ + 1, _, [], st => ([], st)
  | f + 1, prev, c :: rest, st =>
    match tryAt prev (c :: rest) with
    | some (n + 1) =>
      let matched := (c :: rest).take (n + 1)
      let (rep, st') := mkRepl matched st
      let (out, st'') := runReplaceFuel tryAt mkRepl f matched.getLast? ((c :: rest).drop (n + 1)) st'
      (rep ++ out, st'')
    | _ =>
      let (out, st') := runReplaceFuel tryAt mkRepl f (some c) rest st
      (c :: out, st')

/-- Global replace over a character list. -/
def runReplace (tryAt : Option Char → List Char → Option Nat)
    (mkRepl : List Char → PlaceholderStore → List Char × PlaceholderStore)
    (prev : Option Char) (cs : List Char) (st : PlaceholderStore) :
    List Char × PlaceholderStore :=
  runReplaceFuel tryAt mkRepl (cs.length + 1) prev cs st

/-- Global replace on a String. -/
def strReplace (tryAt : Option Char → List Char → Option Nat)
    (mkRepl : List Char → PlaceholderStore → List Char × PlaceholderStore)
    (s : String) (st : PlaceholderStore) : String × PlaceholderStore :=
  let (out, st') := runReplace tryAt mkRepl none s.data st
  (⟨out⟩, st')

/-! ## Route replaces (source: sanitizeZhihuRoutes) -/

/-- Match of /(LIT)(\d{9,})/ at the current position (case-sensitive, no boundary). -/
def routeTryAt (lit : List Char) (_prev : Option Char) (cs : List Char) : Option Nat :=
  match stripLit false lit cs with
  | none => none
  | some rest =>
    let ds := (rest.takeWhile isDigitChar).length
    if ds ≥ 9 then some (lit.length + ds) else none

/-- Replacement of a route match: keep the literal, replace the digits with a
content_id placeholder whose raw value is the digit group. -/
def routeMkRepl (lit : List Char) (matched : List Char) (st : PlaceholderStore) :
    List Char × PlaceholderStore :=
  let digits := matched.drop lit.length
  let (p, st') := nextPlaceholder .content_id st ⟨digits⟩
  (lit ++ p.data, st')

/-- Source: sanitizeZhihuRoutes — the four chained route replaces. -/
def sanitizeZhihuRoutes (input : String) (st : PlaceholderStore) :
    String × PlaceholderStore :=
  let (s1, st1) := strReplace (routeTryAt "/question/".data) (routeMkRepl "/question/".data) input st
  let (s2, st2) := strReplace (routeTryAt "/answer/".data) (routeMkRepl "/answer/".data) s1 st1
  let (s3, st3) := strReplace (routeTryAt "/pin/".data) (routeMkRepl "/pin/".data) s2 st2
  strReplace (routeTryAt "/p/".data) (routeMkRepl "/p/".data) s3 st3

/-! ## The /people/ handle replace (source: sanitizeUrlLike, first statement) -/

/-- Handle character [a-z0-9_-] under the /i flag. -/
def isHandleChar (c : Char) : Bool :=
  c.isAlpha || c.isDigit || c == '_' || c == '-'

/-- Match of /(\/people\/)\b[a-z0-9_-]{3,}\b/i at the current position: the literal
(case-insensitively), the boundary after the slash (so the handle starts with a word
character), then the longest handle length of at least 3 ending on a word boundary. -/
def peopleTryAt (_prev : Option Char) (cs : List Char) : Option Nat :=
  match stripLit true "/people/".data cs with
  | none => none
  | some rest =>
    match rest.head? with
    | none => none
    | some h =>
      if !isWordChar h then none
      else
        match bestGoodLen rest 3 ((rest.takeWhile isHandleChar).length) with
        | none => none
        | some l => some (8 + l)

/-- Replacement of a /people/ match: keep the matched literal group, replace the
handle with a person placeholder whose raw value is the constant "people". -/
def peopleMkRepl (matched : List Char) (st : PlaceholderStore) :
    List Char × PlaceholderStore :=
  let p1 := matched.take 8
  let (p, st') := nextPlaceholder .person st "people"
  (p1 ++ p.data, st')

/-- The /people/ handle replace of sanitizeUrlLike. -/
def replacePeopleRoute (s : String) (st : PlaceholderStore) : String × PlaceholderStore :=
  strReplace peopleTryAt peopleMkRepl s st

/-! ## Token replaces (source: sanitizeTokens) -/

/-- Match of /\bntn_[A-Za-z0-9._-]{8,}\b/ at the current position. -/
def ntnTryAt (prev : Option Char) (cs : List Char) : Option Nat :=
  if !(boundaryBefore prev cs) then none
  else
    match stripLit false "ntn_".data cs with
    | none => none
    | some rest => bestGoodLen cs (4 + 8) (4 + (rest.takeWhile isTokenChar).length)

/-- Replacement of an ntn_ token: a token placeholder for the whole match. -/
def ntnMkRepl (matched : List Char) (st : PlaceholderStore) : List Char × PlaceholderStore :=
  let (p, st') := nextPlaceholder .token st ⟨matched⟩
  (p.data, st')

/-- Match of /\bBearer\s+[A-Za-z0-9._-]{16,}\b/i at the current position. -/
def bearerTryAt (prev : Option Char) (cs : List Char) : Option Nat :=
  if !(boundaryBefore prev cs) then none
  else
    match stripLit true "bearer".data cs with
    | none => none
    | some rest =>
      let sp := (rest.takeWhile isJsSpace).length
      if sp == 0 then none
      else bestGoodLen cs (6 + sp + 16) (6 + sp + ((rest.drop sp).takeWhile isTokenChar).length)

/-- Replacement of a bearer match: the literal text Bearer, one space, and a token
placeholder for the whole original match. -/
def bearerMkRepl (matched : List Char) (st : PlaceholderStore) : List Char × PlaceholderStore :=
  let (p, st') := nextPlaceholder .token st ⟨matched⟩
  ("Bearer ".data ++ p.data, st')

/-- Value character [^;\s"] of the cookie-assignment pattern. -/
def zc0ValueChar (c : Char) : Bool :=
  !(c == ';' || isJsSpace c || c == '"')

/-- Match of /\bz_c0\s*[=:]\s*[^;\s"]+/i at the current position. -/
def zc0AssignTryAt (prev : Option Char) (cs : List Char) : Option Nat :=
  if !(boundaryBefore prev cs) then none
  else
    match stripLit true "z_c0".data cs with
    | none => none
    | some rest =>
      let sp1 := (rest.takeWhile isJsSpace).length
      match (rest.drop sp1).head? with
      | none => none
      | some c =>
        if c == '=' || c == ':' then
          let rest2 := (rest.drop sp1).drop 1
          let sp2 := (rest2.takeWhile isJsSpace).length
          let v := ((rest2.drop sp2).takeWhile zc0ValueChar).length
          if v ≥ 1 then some (4 + sp1 + 1 + sp2 + v) else none
        else none

/-- Replacement of a cookie assignment: the normalized literal z_c0= followed by a
cookie placeholder for the whole original match. -/
def zc0AssignMkRepl (matched : List Char) (st : PlaceholderStore) :
    List Char × PlaceholderStore :=
  let (p, st') := nextPlaceholder .cookie st ⟨matched⟩
  ("z_c0=".data ++ p.data, st')

/-- Match of /\b[A-Za-z0-9._-]{24,}\b/ at the current position. -/
def token24TryAt (prev : Option Char) (cs : List Char) : Option Nat :=
  if !(boundaryBefore prev cs) then none
  else bestGoodLen cs 24 ((cs.takeWhile isTokenChar).length)

/-- Replacement of a generic opaque run: kept as-is when it starts like a URL
(the /^(?:https?:)?\/\//i guard of the source), else a token placeholder. -/
def token24MkRepl (matched : List Char) (st : PlaceholderStore) :
    List Char × PlaceholderStore :=
  if startsHttpCi matched || subAt false "//".data matched then (matched, st)
  else
    let (p, st') := nextPlaceholder .token st ⟨matched⟩
    (p.data, st')

/-- Source: sanitizeTokens — the four chained credential-shaped replaces. -/
def sanitizeTokens (input : String) (st : PlaceholderStore) : String × PlaceholderStore :=
  let (s1, st1) := strReplace ntnTryAt ntnMkRepl input st
  let (s2, st2) := strReplace bearerTryAt bearerMkRepl s1 st1
  let (s3, st3) := strReplace zc0AssignTryAt zc0AssignMkRepl s2 st2
  strReplace token24TryAt token24MkRepl s3 st3

/-! ## Person-name heuristic (source: sanitizePersonish) -/

/-- Length of a capitalized word [A-Z][a-z]+ at the head, when present. -/
def capWordLen (cs : List Char) : Option Nat :=
  match cs.head? with
  | none => none
  | some c =>
    if isUpperAlpha c then
      let low := ((cs.drop 1).takeWhile isLowerAlpha).length
      if low ≥ 1 then some (1 + low) else none
    else none

/-- Length of one extension \s+[A-Z][a-z]+ at the head, when present. -/
def personishExtLen (cs : List Char) : Option Nat :=
  let sp := (cs.takeWhile isJsSpace).length
  if sp == 0 then none
  else
    match capWordLen (cs.drop sp) with
    | some w => some (sp + w)
    | none => none

/-- Greedy extension chain of (?:\s+[A-Z][a-z]+){0,3}: returns the total match
length without the last taken extension and with it (they coincide when no
extension is taken). -/
def personishExtChain : Nat → List Char → Nat → Nat → Nat × Nat
  | 0, _, beforeLast, total => (beforeLast, total)
  | k + 1, cs, beforeLast, total =>
    match personishExtLen cs with
    | some e => personishExtChain k (cs.drop e) total (total + e)
    | none => (beforeLast, total)

/-- Match of /\b([A-Z][a-z]+(?:\s+[A-Z][a-z]+){0,3})\b/ at the current position:
greedy word count, giving back the last word when the final boundary fails (the
boundary before a dropped extension is its whitespace, hence always satisfied). -/
def personishTryAt (prev : Option Char) (cs : List Char) : Option Nat :=
  if !(boundaryBefore prev cs) then none
  else
    match capWordLen cs with
    | none => none
    | some w0 =>
      let bt := personishExtChain 3 (cs.drop w0) w0 w0
      if runEndBoundaryOk cs bt.2 then some bt.2
      else if bt.1 < bt.2 then some bt.1
      else none

/-- The short stoplist of the person-name replacer. -/
def personishStoplist : List String :=
  ["Zhihu", "HTML", "URL", "POST", "GET"]

/-- Replacement of a capitalized-sequence match: kept when on the stoplist, else a
person placeholder for the matched name. -/
def personishMkRepl (matched : List Char) (st : PlaceholderStore) :
    List Char × PlaceholderStore :=
  if personishStoplist.contains ⟨matched⟩ then (matched, st)
  else
    let (p, st') := nextPlaceholder .person st ⟨matched⟩
    (p.data, st')

/-- Source: sanitizePersonish. -/
def sanitizePersonish (input : String) (st : PlaceholderStore) : String × PlaceholderStore :=
  strReplace personishTryAt personishMkRepl input st

/-- Replacement of a bare digit run: a content_id placeholder (source: the final
\b\d{9,}\b replace of sanitizeScalar). -/
def digits9MkRepl (matched : List Char) (st : PlaceholderStore) :
    List Char × PlaceholderStore :=
  let (p, st') := nextPlaceholder .content_id st ⟨matched⟩
  (p.data, st')

/-- Match of /\b\d{9,}\b/ at the current position. -/
def digits9TryAt (prev : Option Char) (cs : List Char) : Option Nat :=
  if !(boundaryBefore prev cs) then none
  else bestGoodLen cs 9 ((cs.takeWhile isDigitChar).length)

/-! ## Query-parameter processing (source: TRACKING_QUERY_KEYS and sanitizeUrlLike) -/

/-- The fixed tracking-key allow-list of the source. -/
def TRACKING_QUERY_KEYS : List String :=
  ["utm_source", "utm_medium", "utm_campaign", "utm_content", "utm_term",
   "spm", "xsec_source", "xsec_token", "from", "_t"]

/-- ASCII lowercase of a string, model of String.prototype.toLowerCase. -/
def strToLower (s : String) : String :=
  ⟨s.data.map Char.toLower⟩

/-- TRACKING_QUERY_KEYS.has(key.toLowerCase()). -/
def isTrackingKey (k : String) : Bool :=
  TRACKING_QUERY_KEYS.contains (strToLower k)

/-- URLSearchParams.get: the value of the first pair with the given name. -/
def spGet (k : String) (ps : List (String × String)) : Option String :=
  (ps.find? (·.1 == k)).map (·.2)

/-- URLSearchParams.set: overwrite the first pair with the given name and drop the
other pairs with that name; append when the name is absent. -/
def spSet (k v : String) : List (String × String) → List (String × String)
  | [] => [(k, v)]
  | (k', v') :: rest =>
    if k' == k then (k, v) :: rest.filter (fun e => !(e.1 == k))
    else (k', v') :: spSet k v rest

/-- The for-loop of sanitizeUrlLike over the snapshot of the query keys: a tracking
key is always replaced with a tracking placeholder keyed by key:rawValue; any other
key is replaced only when its value contains a 9+-digit run or a 24+-character
opaque run. -/
def processKeysLoop : List String → List (String × String) → PlaceholderStore →
    List (String × String) × PlaceholderStore
  | [], ps, st => (ps, st)
  | k :: ks, ps, st =>
    let v := (spGet k ps).getD ""
    if isTrackingKey k then
      let (p, st') := nextPlaceholder .tracking st (k ++ ":" ++ v)
      processKeysLoop ks (spSet k p ps) st'
    else if hasRun isDigitChar 9 v.data || hasRun isTokenChar 24 v.data then
      let (p, st') := nextPlaceholder .tracking st (k ++ ":" ++ v)
      processKeysLoop ks (spSet k p ps) st'
    else processKeysLoop ks ps st

/-- Query processing over the parameter list of a parsed URL. -/
def processQueryParams (ps : List (String × String)) (st : PlaceholderStore) :
    List (String × String) × PlaceholderStore :=
  processKeysLoop (ps.map (·.1)) ps st

/-- Parsed URL model: the part before the first question mark and the query pairs.
The WHATWG parse of new URL is external; percent decoding and normalization are not
modelled. -/
structure UrlParts where
  base : String
  params : List (String × String)
deriving DecidableEq, Repr

/-- Single-character split, model of String.prototype.split on one separator. -/
def splitOnCharAux (sep : Char) : List Char → List Char → List (List Char)
  | [], acc => [acc.reverse]
  | c :: rest, acc =>
    if c == sep then acc.reverse :: splitOnCharAux sep rest []
    else splitOnCharAux sep rest (c :: acc)

/-- Split a character list at every occurrence of the separator. -/
def splitOnChar (sep : Char) (cs : List Char) : List (List Char) :=
  splitOnCharAux sep cs []

/-- One query piece key=value (the piece itself when it has no equals sign). -/
def parseQueryPiece (piece : List Char) : String × String :=
  let k := piece.takeWhile (· ≠ '=')
  if k.length == piece.length then (⟨piece⟩, "")
  else (⟨k⟩, ⟨piece.drop (k.length + 1)⟩)

/-- Model of new URL: split at the first question mark, split the query on
ampersands, drop empty pieces. -/
def parseUrlM (s : String) : UrlParts :=
  let base := s.data.takeWhile (· ≠ '?')
  if base.length == s.data.length then { base := s, params := [] }
  else
    { base := ⟨base⟩,
      params := ((splitOnChar '&' (s.data.drop (base.length + 1))).filter
        (fun p => !p.isEmpty)).map parseQueryPiece }

/-- Model of url.toString() for the parsed representation. -/
def renderUrlM (u : UrlParts) : String :=
  if u.params.isEmpty then u.base
  else u.base ++ "?" ++ String.intercalate "&" (u.params.map (fun e => e.1 ++ "=" ++ e.2))

/-- Source: sanitizeUrlLike — route and people replaces, then, when the remainder is
an absolute http(s) URL, the query-parameter loop. -/
def sanitizeUrlLike (input : String) (st : PlaceholderStore) : String × PlaceholderStore :=
  let (s1, st1) := sanitizeZhihuRoutes input st
  let (s2, st2) := replacePeopleRoute s1 st1
  if !(startsHttpCi s2.data) then (s2, st2)
  else
    let u := parseUrlM s2
    let (ps', st3) := processQueryParams u.params st2
    (renderUrlM { u with params := ps' }, st3)

/-! ## Scalar pipeline (source: sanitizeScalar) -/

/-- The two scrubbing contexts of sanitizeScalar. -/
inductive SanContext where
  | text
  | attr
deriving DecidableEq, Repr

/-- Test of /\b(name|author|user)\b/i. -/
def containsNameAuthorUser (s : String) : Bool :=
  containsWordCi "name".data none s.data || containsWordCi "author".data none s.data ||
    containsWordCi "user".data none s.data

/-- Source: sanitizeScalar — token scrub, URL scrub, whole-value content id for
purely numeric attribute values, the person-name heuristic when the text mentions
name/author/user or the context is text, and the final bare digit-run replace. -/
def sanitizeScalar (input : String) (st : PlaceholderStore) (context : SanContext) :
    String × PlaceholderStore :=
  let (r1, st1) := sanitizeTokens input st
  let (r2, st2) := sanitizeUrlLike r1 st1
  if context == .attr && longNumericTest (jsTrimList r2.data) then
    nextPlaceholder .content_id st2 (jsTrim r2)
  else
    let (r3, st3) :=
      if containsNameAuthorUser r2 || context == .text then sanitizePersonish r2 st2
      else (r2, st2)
    strReplace digits9TryAt digits9MkRepl r3 st3

/-! ## Document model and structure ledger (source: analyzeStructure)

A parsed document is modelled as the flat list of its tag elements in document
order, each carrying its nodePath (computed by the external DOM walk of
getElementNodePath), its tag name, its attribute list and its visible text. The
cheerio parse/serialize round trip is the identity on this representation.
-/

/-- One element of the parsed document model. -/
structure MElement where
  nodePath : String
  tagName : String
  attrs : List (String × String)
  text : String
deriving DecidableEq, Repr

/-- A parsed document: its elements in document order. -/
abbrev DocM := List MElement

/-- LedgerNode of types.ts. The attribute class record is an association list;
a lookup miss models a JavaScript undefined access. -/
structure LedgerNodeM where
  nodePath : String
  tagName : String
  attributesPresent : List String
  attributeValueClass : List (String × ValueClass)
  textClass : Option ValueClass
deriving DecidableEq, Repr

/-- StructureLedger of types.ts. -/
structure StructureLedgerM where
  policyVersion : String
  nodes : List LedgerNodeM
deriving DecidableEq, Repr

/-- Code-unit string comparison, model of the JS default sort order and of the
localeCompare comparator as used on ASCII node paths and placeholders. -/
def strLeB (a b : String) : Bool :=
  decide (a ≤ b)

/-- Stable insertion of one element into a sorted list. -/
def insertSorted (le : α → α → Bool) (a : α) : List α → List α
  | [] => [a]
  | b :: bs => if le a b then a :: b :: bs else b :: insertSorted le a bs

/-- Stable insertion sort, model of the stable Array.prototype.sort. -/
def insertionSort (le : α → α → Bool) : List α → List α
  | [] => []
  | a :: as => insertSorted le a (insertionSort le as)

/-- Record lookup attrs[k]. -/
def attrLookup (k : String) (attrs : List (String × String)) : Option String :=
  (attrs.find? (·.1 == k)).map (·.2)

/-- The ledger node of one element: sorted attribute keys, the class of each
attribute value, and the class of the trimmed visible text when nonempty. -/
def mkLedgerNode (e : MElement) : LedgerNodeM :=
  let keysSorted := insertionSort strLeB (e.attrs.map (·.1))
  { nodePath := e.nodePath, tagName := e.tagName,
    attributesPresent := keysSorted,
    attributeValueClass := keysSorted.map (fun k =>
      (k, classifyValue ((attrLookup k e.attrs).getD ""))),
    textClass :=
      if (jsTrimList e.text.data).isEmpty then none
      else some (classifyValue (jsTrim e.text)) }

/-- Source: analyzeStructure — one ledger node per element, sorted by nodePath. -/
def analyzeStructureM (doc : DocM) (policyVersion : String := "v1") : StructureLedgerM :=
  { policyVersion := policyVersion,
    nodes := insertionSort (fun a b => strLeB a.nodePath b.nodePath) (doc.map mkLedgerNode) }

/-! ## Document sanitization (source: sanitizeHtmlForFixture, the two walks) -/

/-- The attribute-key sensitivity heuristic of the attribute walk: case-insensitive
credential words, case-sensitive URL/identifier key fragments, or exactly alt or
title. -/
def shouldSanitizeAttr (key : String) : Bool :=
  containsLit true "token".data key.data || containsLit true "cookie".data key.data ||
  containsLit true "auth".data key.data || containsLit true "session".data key.data ||
  containsLit true "secret".data key.data ||
  containsLit false "url".data key.data || containsLit false "href".data key.data ||
  containsLit false "src".data key.data || containsLit false "content".data key.data ||
  containsLit false "value".data key.data || containsLit false "data-".data key.data ||
  key == "alt" || key == "title"

/-- Case-insensitive substring test of /name|author|user/i (no word boundaries). -/
def containsNameAuthorUserSub (s : String) : Bool :=
  containsLit true "name".data s.data || containsLit true "author".data s.data ||
    containsLit true "user".data s.data

/-- The attribute loop of one element: eligible values go through the scalar
pipeline, then through the person-name pass when the key (or, for content, the
element's itemprop — an attribute the heuristic never rewrites, so reading it once
up front is faithful) looks personish. -/
def sanitizeAttrList (itemprop : String) :
    List (String × String) → PlaceholderStore → List (String × String) × PlaceholderStore
  | [], st => ([], st)
  | (key, value) :: rest, st =>
    if shouldSanitizeAttr key then
      let (v1, st1) := sanitizeScalar value st .attr
      let personishAttr := containsNameAuthorUserSub key ||
        (key == "content" && containsNameAuthorUserSub itemprop)
      let (v2, st2) := if personishAttr then sanitizePersonish v1 st1 else (v1, st1)
      let (rest', st3) := sanitizeAttrList itemprop rest st2
      ((key, v2) :: rest', st3)
    else
      let (rest', st') := sanitizeAttrList itemprop rest st
      ((key, value) :: rest', st')

/-- The attribute walk applied to one element. -/
def sanitizeElementAttrs (e : MElement) (st : PlaceholderStore) :
    MElement × PlaceholderStore :=
  let itemprop := (attrLookup "itemprop" e.attrs).getD ""
  let (attrs', st') := sanitizeAttrList itemprop e.attrs st
  ({ e with attrs := attrs' }, st')

/-- The structural container selector of the text walk. -/
def containerTags : List String :=
  ["body", "article", "main", "div", "p", "span", "li", "h1", "h2", "h3", "h4"]

/-- The text walk applied to one element: when the element is a listed container
with non-blank text, the text goes through the scalar pipeline; when that changed
it, each literal text node is rewritten by a second scalar pass (the element's text
is one text node in this model). -/
def sanitizeElementText (e : MElement) (st : PlaceholderStore) :
    MElement × PlaceholderStore :=
  if containerTags.contains e.tagName && !(jsTrimList e.text.data).isEmpty then
    let (sText, st1) := sanitizeScalar e.text st .text
    if sText ≠ e.text then
      let (leafText, st2) := sanitizeScalar e.text st1 .text
      ({ e with text := leafText }, st2)
    else (e, st1)
  else (e, st)

/-- Store-threading map over the elements of a document, models a cheerio each loop. -/
def mapWithStore (f : MElement → PlaceholderStore → MElement × PlaceholderStore) :
    DocM → PlaceholderStore → DocM × PlaceholderStore
  | [], st => ([], st)
  | e :: es, st =>
    let (e', st') := f e st
    let (es', st'') := mapWithStore f es st'
    (e' :: es', st'')

/-- Both walks of sanitizeHtmlForFixture: all attributes first, then the text pass. -/
def sanitizeDocM (doc : DocM) (st : PlaceholderStore) : DocM × PlaceholderStore :=
  let (d1, st1) := mapWithStore sanitizeElementAttrs doc st
  mapWithStore sanitizeElementText d1 st1

/-- Model serialization of the document (the external $.html()); attribute-value
escaping is not modelled. -/
def renderElementM (e : MElement) : String :=
  "<" ++ e.tagName ++
    (e.attrs.foldl (fun acc kv => acc ++ " " ++ kv.1 ++ "=\"" ++ kv.2 ++ "\"") "") ++
    ">" ++ e.text ++ "</" ++ e.tagName ++ ">"

/-- Model of the serialized document string. -/
def renderDocM (doc : DocM) : String :=
  String.join (doc.map renderElementM)

/-- SanitizationMapEntry of types.ts (category and sourceType as their JS strings). -/
structure SanitizationMapEntryM where
  placeholder : String
  category : String
  sourceType : String
deriving DecidableEq, Repr

/-- The characters before the first :: occurrence (the whole list when absent). -/
def keyCategoryAux : List Char → List Char
  | [] => []
  | ':' :: ':' :: _ => []
  | c :: rest => c :: keyCategoryAux rest

/-- key.split("::")[0] — the category segment of a memo key. -/
def keyCategory (k : String) : String :=
  ⟨keyCategoryAux k.data⟩

/-- The placeholder-map derivation of sanitizeHtmlForFixture: one entry per memo
entry, sourceType query for tracking and attr otherwise, sorted by placeholder. -/
def buildSanitizationMap (st : PlaceholderStore) : List SanitizationMapEntryM :=
  insertionSort (fun a b => strLeB a.placeholder b.placeholder)
    (st.seen.map (fun e =>
      let category := keyCategory e.1
      { placeholder := e.2, category := category,
        sourceType := if category == "tracking" then "query" else "attr" }))

/-- The JavaScript exception surface observed by the ingest orchestrator. -/
inductive JsError where
  | typeError (msg : String)
  | referenceError (msg : String)
  | syntaxError (msg : String)
  | rangeError (msg : String)
  | error (msg : String)
  | nonErrorThrown (tag : String)
deriving DecidableEq, Repr

/-- Modelled from the external WHATWG URL parser: does new URL(s) succeed? A scheme
of an alphabetic character followed by scheme characters and a colon; the special
http/https schemes additionally need // and a nonempty host. -/
def jsUrlValid (s : String) : Bool :=
  let scheme := s.data.takeWhile (· ≠ ':')
  (match scheme.head? with
   | some c => c.isAlpha
   | none => false) &&
  scheme.all (fun c => c.isAlpha || c.isDigit || c == '+' || c == '-' || c == '.') &&
  decide (scheme.length < s.data.length) &&
  (if strToLower ⟨scheme⟩ == "http" || strToLower ⟨scheme⟩ == "https" then
    subAt false "//".data (s.data.drop (scheme.length + 1)) &&
      !((s.data.drop (scheme.length + 3)).takeWhile (· ≠ '/')).isEmpty
   else true)

/-- SanitizationResult of types.ts; the sanitized document tree is also kept so
that the model serialization and ledger agree by construction. -/
structure SanitizationResultM where
  sanitizedHtml : String
  sanitizedDoc : DocM
  map : List SanitizationMapEntryM
  rawLedger : StructureLedgerM
  sanitizedLedger : StructureLedgerM
deriving DecidableEq, Repr

/-- Source: sanitizeHtmlForFixture(html, sourceUrl, policyVersion) — validate the
source URL (new URL throws a TypeError on failure), build the raw ledger, run both
sanitization walks with a fresh store, serialize, rebuild the ledger, derive the
placeholder map. -/
def sanitizeHtmlForFixtureM (doc : DocM) (sourceUrl : String)
    (policyVersion : String := "v1") : Except JsError SanitizationResultM :=
  if !(jsUrlValid sourceUrl) then .error (.typeError "Invalid URL")
  else
    let rawLedger := analyzeStructureM doc policyVersion
    let (sanDoc, store) := sanitizeDocM doc createPlaceholderStore
    .ok { sanitizedHtml := renderDocM sanDoc, sanitizedDoc := sanDoc,
          map := buildSanitizationMap store,
          rawLedger := rawLedger,
          sanitizedLedger := analyzeStructureM sanDoc policyVersion }

/-! ## Secret-pattern scanner (source: FORBIDDEN_SECRET_PATTERNS /
findForbiddenSecretPatterns) -/

/-- Existence scan of a pattern over a string (model of RegExp.prototype.test). -/
def patScan (tryAt : Option Char → List Char → Option Nat) :
    Option Char → List Char → Bool
  | _, [] => false
  | prev, c :: rest => (tryAt prev (c :: rest)).isSome || patScan tryAt (some c) rest

/-- Pattern test on a whole string. -/
def patTest (tryAt : Option Char → List Char → Option Nat) (s : String) : Bool :=
  patScan tryAt none s.data

/-- Match of /\bntn_[A-Za-z0-9._-]{8,}\b/i at the current position (the scanner
variant is case-insensitive, unlike the replace of sanitizeTokens). -/
def ntnCiTryAt (prev : Option Char) (cs : List Char) : Option Nat :=
  if !(boundaryBefore prev cs) then none
  else
    match stripLit true "ntn_".data cs with
    | none => none
    | some rest => bestGoodLen cs (4 + 8) (4 + (rest.takeWhile isTokenChar).length)

/-- Match of /\bsecret[-_][A-Za-z0-9._-]{8,}\b/i at the current position. -/
def secretTryAt (prev : Option Char) (cs : List Char) : Option Nat :=
  if !(boundaryBefore prev cs) then none
  else
    match stripLit true "secret".data cs with
    | none => none
    | some rest =>
      match rest.head? with
      | none => none
      | some c =>
        if c == '-' || c == '_' then
          bestGoodLen cs (6 + 1 + 8) (6 + 1 + ((rest.drop 1).takeWhile isTokenChar).length)
        else none

/-- Match of /"notionToken"\s*:/i at the current position. -/
def notionTokenTryAt (_prev : Option Char) (cs : List Char) : Option Nat :=
  match stripLit true "\"notionToken\"".data cs with
  | none => none
  | some rest =>
    let sp := (rest.takeWhile isJsSpace).length
    match (rest.drop sp).head? with
    | some c => if c == ':' then some (13 + sp + 1) else none
    | none => none

/-- Separator class ["'\s:=] of the cookie-assignment scanner pattern. -/
def zc0SepChar (c : Char) : Bool :=
  c == '"' || c == '\x27' || isJsSpace c || c == ':' || c == '='

/-- Match of /\bz_c0["'\s:=]+["']?[A-Za-z0-9._-]{minLen,}/i at the current position.
The optional quote is subsumed by the greedy separator run because quotes belong to
the separator class and no separator is a token character. The source scanner uses
minLen = 8. -/
def zc0PatternTryAt (minLen : Nat) (prev : Option Char) (cs : List Char) : Option Nat :=
  if !(boundaryBefore prev cs) then none
  else
    match stripLit true "z_c0".data cs with
    | none => none
    | some rest =>
      let sp := (rest.takeWhile zc0SepChar).length
      if sp == 0 then none
      else
        let run := ((rest.drop sp).takeWhile isTokenChar).length
        if run ≥ minLen then some (4 + sp + run) else none

/-- The toString rendering of the seventh source pattern, as pushed into the hits. -/
def zc0PatternDesc : String :=
  "/\\bz_c0[\"\x27\\s:=]\x7b1,\x7d[\"\x27]?[A-Za-z0-9._-]\x7b8,\x7d/i"

/-- Source: FORBIDDEN_SECRET_PATTERNS — the fixed ordered pattern list, each with
its toString description. -/
def FORBIDDEN_SECRET_PATTERNS : List (String × (String → Bool)) :=
  [("/\\bBearer\\s+[A-Za-z0-9._-]\x7b16,\x7d\\b/i", patTest bearerTryAt),
   ("/\\bntn_[A-Za-z0-9._-]\x7b8,\x7d\\b/i", patTest ntnCiTryAt),
   ("/\\bsecret[-_][A-Za-z0-9._-]\x7b8,\x7d\\b/i", patTest secretTryAt),
   ("/cookies\\.secrets\\.local\\.json/i", fun s => containsLit true "cookies.secrets.local.json".data s.data),
   ("/notion\\.secrets\\.local\\.json/i", fun s => containsLit true "notion.secrets.local.json".data s.data),
   ("/\"notionToken\"\\s*:/i", patTest notionTokenTryAt),
   (zc0PatternDesc, patTest (zc0PatternTryAt 8))]

/-- Source: findForbiddenSecretPatterns(content) — the descriptions of the patterns
that match, in the fixed order. -/
def findForbiddenSecretPatterns (content : String) : List String :=
  (FORBIDDEN_SECRET_PATTERNS.filter (fun p => p.2 content)).map (·.1)

/-! ## Ledger differ (source: isTransitionAllowed / diffStructureLedger) -/

/-- LedgerDiffResult of the source. -/
structure LedgerDiffResult where
  ok : Bool
  violations : List String
  warnings : List String
deriving DecidableEq, Repr

/-- JS Map set: overwrite in place or append. -/
def jsMapSet (k : String) (v : α) : List (String × α) → List (String × α)
  | [] => [(k, v)]
  | (k', v') :: rest => if k' == k then (k, v) :: rest else (k', v') :: jsMapSet k v rest

/-- JS Map built from a pair list (later pairs overwrite, first-insertion order). -/
def jsMapOfList (l : List (String × α)) : List (String × α) :=
  l.foldl (fun m e => jsMapSet e.1 e.2 m) []

/-- JS Map get. -/
def jsMapGet (k : String) (m : List (String × α)) : Option α :=
  (m.find? (·.1 == k)).map (·.2)

/-- String interpolation of a possibly-undefined ValueClass. -/
def showOptClass : Option ValueClass → String
  | none => "undefined"
  | some c => className c

/-- Source: isTransitionAllowed(from, to); the Option models a JavaScript undefined
record access, for which the strict-equality first test still applies. -/
def isTransitionAllowed (f t : Option ValueClass) : Bool :=
  f == t ||
  (f == some .long_numeric_id && t == some .plain_text) ||
  (f == some .token_like && t == some .plain_text) ||
  (f == some .url && t == some .url)

/-- The per-attribute checks of the diff loop: a raw attribute absent on the
sanitized node is a missing-attribute violation; a present one must have an
allowed class transition. -/
def attrViolations (nodePath : String) (rawNode sanNode : LedgerNodeM) : List String :=
  (rawNode.attributesPresent.map (fun attr =>
    if !(sanNode.attributesPresent.contains attr) then
      ["missing attribute at " ++ nodePath ++ ": " ++ attr]
    else
      let f := (rawNode.attributeValueClass.find? (·.1 == attr)).map (·.2)
      let t := (sanNode.attributeValueClass.find? (·.1 == attr)).map (·.2)
      if !(isTransitionAllowed f t) then
        ["value class change not allowed at " ++ nodePath ++ "." ++ attr ++ ": " ++
          showOptClass f ++ " -> " ++ showOptClass t]
      else [])).flatten

/-- The per-raw-node checks of the diff loop. -/
def nodeViolations (sanMap : List (String × LedgerNodeM)) (entry : String × LedgerNodeM) :
    List String :=
  match jsMapGet entry.1 sanMap with
  | none => ["missing node in sanitized ledger: " ++ entry.1]
  | some sanNode =>
    (if entry.2.tagName ≠ sanNode.tagName then
      ["tag mismatch at " ++ entry.1 ++ ": " ++ entry.2.tagName ++ " -> " ++ sanNode.tagName]
     else []) ++ attrViolations entry.1 entry.2 sanNode

/-- Source: diffStructureLedger(raw, sanitized) — join by nodePath; raw-only nodes,
tag changes and attribute problems are violations; sanitized-only nodes are
warnings; ok iff no violation. -/
def diffStructureLedger (raw sanitized : StructureLedgerM) : LedgerDiffResult :=
  let rawMap := jsMapOfList (raw.nodes.map (fun n => (n.nodePath, n)))
  let sanMap := jsMapOfList (sanitized.nodes.map (fun n => (n.nodePath, n)))
  let violations := (rawMap.map (nodeViolations sanMap)).flatten
  let warnings := sanMap.filterMap (fun e =>
    if (jsMapGet e.1 rawMap).isSome then none
    else some ("new node introduced during sanitization: " ++ e.1))
  { ok := violations.length == 0, violations := violations, warnings := warnings }

/-! ## Ingest orchestrator (source: runIngest and its helpers)

The filesystem is modelled as two association lists: the readable input HTML files
(kept as their parsed documents, the parse being external) and the written text
artifacts. All effects are threaded explicitly; timestampCompact() is the now
parameter.
-/

/-- IngestInput of types.ts (the fields runIngest reads). -/
structure IngestInputM where
  htmlPath : String
  sourceUrl : String
  fixture : String
  outFixturesDir : Option String
  policyVersion : Option String
  debugLedger : Bool
deriving DecidableEq, Repr

/-- The artifacts record of IngestResult. -/
structure IngestArtifactsM where
  rawArchivePath : String
  sanitizedHtmlPath : String
  mapPath : String
  ledgerPath : Option String
deriving DecidableEq, Repr

/-- The stats record of IngestResult. -/
structure IngestStatsM where
  replacements : Nat
  ledgerNodesRaw : Nat
  ledgerNodesSanitized : Nat
  diffWarnings : Nat
deriving DecidableEq, Repr

/-- IngestResult of types.ts. -/
structure IngestResultM where
  ok : Bool
  htmlPath : String
  sourceUrl : String
  fixture : String
  artifacts : IngestArtifactsM
  stats : IngestStatsM
deriving DecidableEq, Repr

/-- The modelled filesystem state. -/
structure FsState where
  htmlFiles : List (String × DocM)
  files : List (String × String)
deriving DecidableEq, Repr

/-- Model of a text write (writeTextFile / writeJsonFile overwrite). -/
def setFile (p c : String) (fs : FsState) : FsState :=
  { fs with files := jsMapSet p c fs.files }

/-- Model of the fs access existence probe of assertTargetNotExists. -/
def fileExists (p : String) (fs : FsState) : Bool :=
  (jsMapGet p fs.files).isSome

/-- Model of path.join for two segments. -/
def pathJoin (a b : String) : String :=
  a ++ "/" ++ b

/-- Test of /^[A-Za-z0-9][A-Za-z0-9_-]*$/ (assertFixtureName). -/
def validFixtureName (s : String) : Bool :=
  match s.data with
  | [] => false
  | c :: rest =>
    (c.isAlpha || c.isDigit) && rest.all (fun d => d.isAlpha || d.isDigit || d == '_' || d == '-')

/-- The catch block of the sanitizing phase of runIngest: TypeError, ReferenceError
and SyntaxError become the tagged sanitize failure; any other Error whose message
is exactly Invalid URL becomes the invalid-source-URL abort; everything else is
rethrown unchanged. -/
def tagSanitizeError : JsError → JsError
  | .typeError m => .error ("E_INGEST_SANITIZE_FAILED: " ++ m)
  | .referenceError m => .error ("E_INGEST_SANITIZE_FAILED: " ++ m)
  | .syntaxError m => .error ("E_INGEST_SANITIZE_FAILED: " ++ m)
  | .rangeError m => if m == "Invalid URL" then .error "E_INGEST_INVALID_SOURCE_URL" else .rangeError m
  | .error m => if m == "Invalid URL" then .error "E_INGEST_INVALID_SOURCE_URL" else .error m
  | .nonErrorThrown t => .nonErrorThrown t

/-- JSON.stringify(map, null, 2) for the placeholder-map array. -/
def renderMapJson (m : List SanitizationMapEntryM) : String :=
  if m.isEmpty then "[]"
  else
    "[\n" ++ String.intercalate ",\n" (m.map (fun e =>
      "  \x7b\n    \"placeholder\": \"" ++ e.placeholder ++ "\",\n    \"category\": \"" ++
        e.category ++ "\",\n    \"sourceType\": \"" ++ e.sourceType ++ "\"\n  \x7d")) ++ "\n]"

/-- Modelled serialization of one ledger node for the debug dump. -/
def renderLedgerNodeDump (n : LedgerNodeM) : String :=
  n.nodePath ++ "#" ++ n.tagName ++ "#" ++ String.intercalate "," n.attributesPresent ++
    "#" ++ String.intercalate ","
      (n.attributeValueClass.map (fun e => e.1 ++ ":" ++ className e.2)) ++
    "#" ++ showOptClass n.textClass

/-- Modelled serialization of the optional debug ledger dump; no claim depends on
its exact layout. -/
def renderLedgerDump (policyVersion : String) (san : SanitizationResultM)
    (diff : LedgerDiffResult) : String :=
  policyVersion ++ "|raw:" ++
    String.intercalate ";" (san.rawLedger.nodes.map renderLedgerNodeDump) ++
    "|sanitized:" ++
    String.intercalate ";" (san.sanitizedLedger.nodes.map renderLedgerNodeDump) ++
    "|violations:" ++ String.intercalate ";" diff.violations ++
    "|warnings:" ++ String.intercalate ";" diff.warnings ++ "\n"

/-- The output directory with its tests/fixtures default. -/
def ingestOutDir (input : IngestInputM) : String :=
  input.outFixturesDir.getD (pathJoin "tests" "fixtures")

/-- The sanitized-HTML artifact path of an ingest input. -/
def sanitizedHtmlPathOf (input : IngestInputM) : String :=
  pathJoin (ingestOutDir input) (input.fixture ++ ".html")

/-- The placeholder-map artifact path of an ingest input. -/
def mapPathOf (input : IngestInputM) : String :=
  pathJoin (ingestOutDir input) (input.fixture ++ ".map.json")

/-- The debug-ledger artifact path of an ingest input. -/
def ledgerPathOf (input : IngestInputM) : String :=
  pathJoin (ingestOutDir input) (input.fixture ++ ".ledger.json")

/-- The read-only phases of runIngest through the ledger diff: source-URL
validation, fixture-name validation, reading the input HTML (the missing-file
abort is modelled from the spec, formatMissingFileError of utils/fs.ts not being
under src/), the blank-input check, the sanitizing phase with its catch block, and
the diff check. Returns the parsed input document and the sanitization result. -/
def ingestPrepare (input : IngestInputM) (fs : FsState) :
    Except JsError (DocM × SanitizationResultM) :=
  if !(jsUrlValid input.sourceUrl) then .error (.error "E_INGEST_INVALID_SOURCE_URL")
  else if !(validFixtureName input.fixture) then
    .error (.error "E_INGEST_SANITIZE_FAILED: invalid fixture name")
  else
    match jsMapGet input.htmlPath fs.htmlFiles with
    | none => .error (.error ("missing ingest html: " ++ input.htmlPath))
    | some doc =>
      if (jsTrimList (renderDocM doc).data).isEmpty then .error (.error "E_INGEST_INVALID_HTML")
      else
        match sanitizeHtmlForFixtureM doc input.sourceUrl (input.policyVersion.getD "v1") with
        | .error e => .error (tagSanitizeError e)
        | .ok san =>
          let diff := diffStructureLedger san.rawLedger san.sanitizedLedger
          if !diff.ok then
            .error (.error ("E_INGEST_LEDGER_DIFF: " ++ String.intercalate "; " diff.violations))
          else .ok (doc, san)

/-- The timestamped untracked raw-archive path. -/
def rawArchivePathOf (input : IngestInputM) (now : String) : String :=
  pathJoin (pathJoin (pathJoin ".local" "raw-imports") (now ++ "-" ++ input.fixture)) "raw.html"

/-- The four writes of the writing phase. -/
def ingestWrites (input : IngestInputM) (doc : DocM) (san : SanitizationResultM)
    (fs : FsState) (now : String) : FsState :=
  let fs1 := setFile (rawArchivePathOf input now) (renderDocM doc) fs
  let fs2 := setFile (sanitizedHtmlPathOf input) san.sanitizedHtml fs1
  let fs3 := setFile (mapPathOf input) (renderMapJson san.map ++ "\n") fs2
  if input.debugLedger then
    setFile (ledgerPathOf input)
      (renderLedgerDump (input.policyVersion.getD "v1") san
        (diffStructureLedger san.rawLedger san.sanitizedLedger)) fs3
  else fs3

/-- The secret-scanning, target-checking and writing phases of runIngest, after a
successful preparation. The filesystem is returned unchanged on every abort. -/
def ingestWritePhase (input : IngestInputM) (doc : DocM) (san : SanitizationResultM)
    (fs : FsState) (now : String) : Except JsError IngestResultM × FsState :=
  if !(findForbiddenSecretPatterns san.sanitizedHtml).isEmpty ||
      !(findForbiddenSecretPatterns (renderMapJson san.map)).isEmpty then
    (.error (.error ("E_INGEST_SECRET_PATTERN: " ++
      String.intercalate ", " (findForbiddenSecretPatterns san.sanitizedHtml ++
        findForbiddenSecretPatterns (renderMapJson san.map)))), fs)
  else if fileExists (sanitizedHtmlPathOf input) fs then
    (.error (.error ("E_INGEST_TARGET_EXISTS: " ++ sanitizedHtmlPathOf input)), fs)
  else if fileExists (mapPathOf input) fs then
    (.error (.error ("E_INGEST_TARGET_EXISTS: " ++ mapPathOf input)), fs)
  else if input.debugLedger && fileExists (ledgerPathOf input) fs then
    (.error (.error ("E_INGEST_TARGET_EXISTS: " ++ ledgerPathOf input)), fs)
  else
    (.ok { ok := true,
           htmlPath := input.htmlPath, sourceUrl := input.sourceUrl, fixture := input.fixture,
           artifacts := { rawArchivePath := rawArchivePathOf input now,
                          sanitizedHtmlPath := sanitizedHtmlPathOf input,
                          mapPath := mapPathOf input,
                          ledgerPath :=
                            if input.debugLedger then some (ledgerPathOf input) else none },
           stats := { replacements := san.map.length,
                      ledgerNodesRaw := san.rawLedger.nodes.length,
                      ledgerNodesSanitized := san.sanitizedLedger.nodes.length,
                      diffWarnings :=
                        (diffStructureLedger san.rawLedger san.sanitizedLedger).warnings.length } },
     ingestWrites input doc san fs now)

/-- Source: runIngest(input) — the read-only phases, then the secret scan over the
sanitized HTML and the serialized map, then the pre-flight target checks, then the
writes (raw archive, sanitized HTML, map, optional ledger dump), then the result
summary. -/
def runIngestM (input : IngestInputM) (fs : FsState) (now : String) :
    Except JsError IngestResultM × FsState :=
  match ingestPrepare input fs with
  | .error e => (.error e, fs)
  | .ok (doc, san) => ingestWritePhase input doc san fs now

/-! ## Auxiliary definitions used by the verification -/

/-- Decoder of a placeholder token, inverse of fmtPlaceholder. -/
def decodeFmt (s : String) : SanitizationCategory × Nat :=
  if subAt false "PERSON_".data s.data then (.person, decodeDecimal (s.data.drop 7))
  else if subAt false "CID_".data s.data then (.content_id, decodeDecimal (s.data.drop 4))
  else if subAt false "TOKEN_".data s.data then (.token, decodeDecimal (s.data.drop 6))
  else if subAt false "COOKIE_".data s.data then (.cookie, decodeDecimal (s.data.drop 7))
  else (.tracking, decodeDecimal (s.data.drop 6))

/-- Decoder of a memo key, inverse of catKey. -/
def decodeCatKey (s : String) : SanitizationCategory × String :=
  if subAt false "person::".data s.data then (.person, ⟨s.data.drop 8⟩)
  else if subAt false "content_id::".data s.data then (.content_id, ⟨s.data.drop 12⟩)
  else if subAt false "token::".data s.data then (.token, ⟨s.data.drop 7⟩)
  else if subAt false "cookie::".data s.data then (.cookie, ⟨s.data.drop 8⟩)
  else (.tracking, ⟨s.data.drop 10⟩)

/-- Well-formedness of a placeholder store: every memo entry is a category key
mapped to a formatted token whose counter value is positive and bounded by the
category counter, and the memo is injective on values. -/
def StoreWF (s : PlaceholderStore) : Prop :=
  (∀ e ∈ s.seen, ∃ c r n, e.1 = catKey c r ∧ e.2 = fmtPlaceholder c n ∧
      1 ≤ n ∧ n ≤ getCounter s c) ∧
  (∀ e1 ∈ s.seen, ∀ e2 ∈ s.seen, e1.2 = e2.2 → e1.1 = e2.1)

/-- The tagged outcomes the spec promises from the sanitizing phase. -/
def isTaggedSanitizeOutcome (e : JsError) : Prop :=
  (∃ m, e = .error ("E_INGEST_SANITIZE_FAILED: " ++ m)) ∨
    e = .error "E_INGEST_INVALID_SOURCE_URL"

/-- Modelled from the spec: the secret gate's description of the z_c0 rule —
an unredacted z_c0 cookie assignment of 16 or more characters (same assignment
grammar as the code's pattern, with the spec's 16-character threshold). -/
def specZc0Sixteen (s : String) : Bool :=
  patTest (zc0PatternTryAt 16) s

/-- The per-parameter decision of the query loop: tracking keys always get a
tracking placeholder keyed key:rawValue; other keys only when the value carries a
9+-digit or 24+-character run; otherwise the value is kept. -/
def paramStep (k v : String) (st : PlaceholderStore) : String × PlaceholderStore :=
  if isTrackingKey k then nextPlaceholder .tracking st (k ++ ":" ++ v)
  else if hasRun isDigitChar 9 v.data || hasRun isTokenChar 24 v.data then
    nextPlaceholder .tracking st (k ++ ":" ++ v)
  else (v, st)

/-- Structural form of the query loop for duplicate-free key lists. -/
def processParamsSimple : List (String × String) → PlaceholderStore →
    List (String × String) × PlaceholderStore
  | [], st => ([], st)
  | (k, v) :: rest, st =>
    ((k, (paramStep k v st).1) :: (processParamsSimple rest (paramStep k v st).2).1,
      (processParamsSimple rest (paramStep k v st).2).2)

/-- A handle the /people/ pattern matches in full: at least three characters of
the handle class, starting and ending with word characters. -/
def isValidHandle (h : String) : Bool :=
  decide (h.data.length ≥ 3) && h.data.all isHandleChar &&
  (match h.data.head? with | some c => isWordChar c | none => false) &&
  (match h.data.getLast? with | some c => isWordChar c | none => false)

/-- Concrete ingest input for the claim C8 witness. -/
def c8input : IngestInputM :=
  ⟨"in.html", "https://example.com/", "fix", none, none, false⟩

/-- Concrete filesystem with one readable input document for the claim C8 witness. -/
def c8fs : FsState :=
  ⟨[("in.html", [⟨"/body[1]/div[1]", "div", [], "x"⟩])], []⟩

/-- The result record of the first claim C8 witness run. -/
def c8result : IngestResultM :=
  ⟨true, "in.html", "https://example.com/", "fix",
    ⟨".local/raw-imports/t1-fix/raw.html", "tests/fixtures/fix.html",
      "tests/fixtures/fix.map.json", none⟩,
    ⟨0, 1, 1, 0⟩⟩

/-- A document whose only z_c0 cookie assignment sits in an attribute the
sanitizer never rewrites, with a value below the secret scanner threshold. -/
def c4doc : DocM := [⟨"/body[1]/div[1]", "div", [("foo", "z_c0=abc")], ""⟩]

/-- Concrete ingest input for the claim C4 counterexample. -/
def c4input : IngestInputM :=
  ⟨"in.html", "https://example.com/", "fix4", none, none, false⟩

/-- Concrete filesystem holding the claim C4 counterexample document. -/
def c4fs : FsState := ⟨[("in.html", c4doc)], []⟩

/-- The success record runIngest returns on the claim C4 counterexample. -/
def c4result : IngestResultM :=
  ⟨true, "in.html", "https://example.com/", "fix4",
    ⟨".local/raw-imports/t1-fix4/raw.html", "tests/fixtures/fix4.html",
      "tests/fixtures/fix4.map.json", none⟩,
    ⟨0, 1, 1, 0⟩⟩

/-- A document carrying a z_c0 cookie assignment in a sanitized attribute, for
the claim C4 witness. -/
def c4edoc : DocM :=
  [⟨"/body[1]/div[1]", "div", [("data-cookie", "z_c0=tokenvalue")], ""⟩]

/-- Concrete ingest input for the claim C4 witness. -/
def c4einput : IngestInputM :=
  ⟨"in.html", "https://example.com/", "fix4", none, none, false⟩

/-- Concrete filesystem holding the claim C4 witness document. -/
def c4efs : FsState := ⟨[("in.html", c4edoc)], []⟩

/-- The sanitization result of the claim C4 witness preparation. -/
def c4esan : SanitizationResultM :=
  match ingestPrepare c4einput c4efs with
  | .ok (_, san) => san
  | .error _ => ⟨"", [], [], ⟨"", []⟩, ⟨"", []⟩⟩

/-- Shape equality of an element and its sanitized image: same node path, tag and
attribute-key sequence (only attribute values and text may change). -/
def ElemShapeEq (e e' : MElement) : Prop :=
  e'.nodePath = e.nodePath ∧ e'.tagName = e.tagName ∧
    e'.attrs.map Prod.fst = e.attrs.map Prod.fst

/-- Shape equality of a raw ledger node and its sanitized counterpart: same node
path, tag and sorted attribute-key list. -/
def NodeShapeEq (n m : LedgerNodeM) : Prop :=
  m.nodePath = n.nodePath ∧ m.tagName = n.tagName ∧
    m.attributesPresent = n.attributesPresent

/-- Shape equality lifted to the keyed ledger-map entries. -/
def EntryShapeEq (x y : String × LedgerNodeM) : Prop :=
  x.1 = y.1 ∧ NodeShapeEq x.2 y.2

/-- A document whose sanitization changes an email-like attribute value into a
placeholder-bearing plain string, for the claim C1 counterexample. -/
def c1doc : DocM :=
  [⟨"/body[1]/div[1]", "div", [("content", "a@aaaaaaaaaaaaaaaaaaaaaaaaaa.com")], ""⟩]

/-- The sanitization result of the claim C1 counterexample document. -/
def c1san : SanitizationResultM :=
  match sanitizeHtmlForFixtureM c1doc "https://example.com/" "v1" with
  | .ok san => san
  | .error _ => ⟨"", [], [], ⟨"", []⟩, ⟨"", []⟩⟩

/-! ## Lemmas: decimal rendering and placeholder token injectivity -/

theorem digitChar_toNat (n : Nat) (h : n < 10) : (digitChar n).toNat = 48 + n := by
  interval_cases n <;> decide

theorem decodeDecimal_natDigitsFuel (f : Nat) :
    ∀ n, n < f → decodeDecimal (natDigitsFuel f n) = n := by
  induction f with
  | zero => intro n h; omega
  | succ f ih =>
    intro n h
    unfold natDigitsFuel
    split
    · rename_i hn
      simp only [decodeDecimal, List.foldl]
      rw [digitChar_toNat n hn]
      omega
    · rename_i hn
      have hn10 : 10 ≤ n := by omega
      have hlt : n / 10 < f := by
        have : n / 10 < n := Nat.div_lt_self (by omega) (by omega)
        omega
      have hmod : (digitChar (n % 10)).toNat = 48 + n % 10 :=
        digitChar_toNat _ (Nat.mod_lt _ (by omega))
      simp only [decodeDecimal, List.foldl_append, List.foldl]
      have := ih (n / 10) hlt
      simp only [decodeDecimal] at this
      rw [this, hmod]
      omega

theorem decodeDecimal_natDigits (n : Nat) : decodeDecimal (natDigits n) = n :=
  decodeDecimal_natDigitsFuel (n + 1) n (Nat.lt_succ_self n)

theorem decodeDecimal_replicate_zero (k : Nat) (cs : List Char) :
    decodeDecimal (List.replicate k '0' ++ cs) = decodeDecimal cs := by
  induction k with
  | zero => rfl
  | succ k ih =>
    simp only [List.replicate_succ, List.cons_append, decodeDecimal, List.foldl]
    simpa [decodeDecimal] using ih

theorem decodeDecimal_padLeft3 (cs : List Char) :
    decodeDecimal (padLeft3 cs) = decodeDecimal cs := by
  unfold padLeft3
  split
  · rfl
  · exact decodeDecimal_replicate_zero _ _

theorem fmtPlaceholder_data (c : SanitizationCategory) (n : Nat) :
    (fmtPlaceholder c n).data = (categoryPrefix c).data ++ '_' :: padLeft3 (natDigits n) := by
  cases c <;> rfl

theorem decodeFmt_fmtPlaceholder (c : SanitizationCategory) (n : Nat) :
    decodeFmt (fmtPlaceholder c n) = (c, n) := by
  cases c <;>
    simp [decodeFmt, fmtPlaceholder_data, categoryPrefix, subAt, stripLit,
      decodeDecimal_padLeft3, decodeDecimal_natDigits]

theorem fmtPlaceholder_inj {c c' : SanitizationCategory} {n n' : Nat}
    (h : fmtPlaceholder c n = fmtPlaceholder c' n') : c = c' ∧ n = n' := by
  have := congrArg decodeFmt h
  rw [decodeFmt_fmtPlaceholder, decodeFmt_fmtPlaceholder] at this
  exact ⟨congrArg Prod.fst this, congrArg Prod.snd this⟩

theorem catKey_data (c : SanitizationCategory) (r : String) :
    (catKey c r).data = (categoryName c).data ++ ':' :: ':' :: r.data := by
  cases c <;> rfl

theorem decodeCatKey_catKey (c : SanitizationCategory) (r : String) :
    decodeCatKey (catKey c r) = (c, r) := by
  cases c <;>
    simp [decodeCatKey, catKey_data, categoryName, subAt, stripLit]

theorem catKey_inj {c c' : SanitizationCategory} {r r' : String}
    (h : catKey c r = catKey c' r') : c = c' ∧ r = r' := by
  have := congrArg decodeCatKey h
  rw [decodeCatKey_catKey, decodeCatKey_catKey] at this
  exact ⟨congrArg Prod.fst this, congrArg Prod.snd this⟩

/-! ## Lemmas: placeholder store invariant -/

theorem bumpCounter_seen (c : SanitizationCategory) (s : PlaceholderStore) :
    (bumpCounter c s).seen = s.seen := by
  cases c <;> rfl

theorem getCounter_bump (c c' : SanitizationCategory) (s : PlaceholderStore) :
    getCounter (bumpCounter c s) c' =
      if c = c' then getCounter s c' + 1 else getCounter s c' := by
  cases c <;> cases c' <;> rfl

theorem getCounter_setSeen (s : PlaceholderStore) (l : List (String × String))
    (c : SanitizationCategory) : getCounter { s with seen := l } c = getCounter s c := by
  cases c <;> rfl


theorem storeWF_create : StoreWF createPlaceholderStore := by
  constructor
  · intro e he; simp [createPlaceholderStore] at he
  · intro e1 he1; simp [createPlaceholderStore] at he1

theorem seenLookup_mem {k p : String} {seen : List (String × String)}
    (h : seenLookup k seen = some p) : (k, p) ∈ seen := by
  unfold seenLookup at h
  cases hf : seen.find? (fun e => e.1 == k) with
  | none => rw [hf] at h; simp at h
  | some e =>
    rw [hf] at h
    simp at h
    have hp := List.find?_some hf
    have hm := List.mem_of_find?_eq_some hf
    have : e.1 = k := by simpa using hp
    have : e = (k, p) := by
      cases e; simp_all
    rw [this] at hm; exact hm

theorem storeWF_next (c : SanitizationCategory) (r : String) {s : PlaceholderStore}
    (hwf : StoreWF s) : StoreWF (nextPlaceholder c s r).2 := by
  obtain ⟨hshape, hinj⟩ := hwf
  unfold nextPlaceholder
  cases hlk : seenLookup (catKey c r) s.seen with
  | some p => exact ⟨hshape, hinj⟩
  | none =>
    simp only
    constructor
    · intro e he
      rw [bumpCounter_seen] at he
      rcases List.mem_append.1 he with hold | hnew
      · obtain ⟨c', r', n, h1, h2, h3, h4⟩ := hshape e hold
        exact ⟨c', r', n, h1, h2, h3, by
          simp only [getCounter_setSeen, getCounter_bump]
          split <;> omega⟩
      · simp at hnew
        refine ⟨c, r, getCounter (bumpCounter c s) c, ?_, ?_, ?_, ?_⟩
        · rw [hnew]
        · rw [hnew]
        · rw [getCounter_bump]; simp
        · simp only [getCounter_setSeen]
          exact le_refl _
    · intro e1 he1 e2 he2 hval
      rw [bumpCounter_seen] at he1 he2
      rcases List.mem_append.1 he1 with h1 | h1 <;> rcases List.mem_append.1 he2 with h2 | h2
      · exact hinj e1 h1 e2 h2 hval
      · -- e1 old, e2 the fresh entry: the fresh value has counter value above every old one
        exfalso
        simp at h2
        obtain ⟨c', r', n, _, hv1, _, hb⟩ := hshape e1 h1
        rw [hv1, h2] at hval
        obtain ⟨hc, hn⟩ := fmtPlaceholder_inj hval
        subst hc
        rw [getCounter_bump] at hn
        simp at hn
        omega
      · exfalso
        simp at h1
        obtain ⟨c', r', n, _, hv2, _, hb⟩ := hshape e2 h2
        rw [hv2, h1] at hval
        obtain ⟨hc, hn⟩ := fmtPlaceholder_inj hval.symm
        subst hc
        rw [getCounter_bump] at hn
        simp at hn
        omega
      · simp at h1 h2
        rw [h1, h2]

theorem storeWF_runStore (reqs : List (SanitizationCategory × String)) :
    StoreWF (runStore reqs) := by
  unfold runStore
  have h : ∀ (l : List (SanitizationCategory × String)) (s : PlaceholderStore),
      StoreWF s → StoreWF (l.foldl (fun s r => (nextPlaceholder r.1 s r.2).2) s) := by
    intro l
    induction l with
    | nil => intro s hs; exact hs
    | cons a l ih => intro s hs; exact ih _ (storeWF_next a.1 a.2 hs)
  exact h reqs createPlaceholderStore storeWF_create

theorem getCounter_next_mono (st : PlaceholderStore) (c c' : SanitizationCategory)
    (r : String) : getCounter st c' ≤ getCounter (nextPlaceholder c st r).2 c' := by
  unfold nextPlaceholder
  cases seenLookup (catKey c r) st.seen with
  | some p => exact le_refl _
  | none =>
    simp only [getCounter_setSeen, getCounter_bump]
    split <;> omega

theorem nextPlaceholder_memo (st : PlaceholderStore) (c : SanitizationCategory)
    (r : String) :
    (nextPlaceholder c (nextPlaceholder c st r).2 r).1 = (nextPlaceholder c st r).1 := by
  unfold nextPlaceholder
  cases hlk : seenLookup (catKey c r) st.seen with
  | some p => simp [hlk]
  | none =>
    simp only [hlk]
    have : seenLookup (catKey c r)
        ((bumpCounter c st).seen ++
          [(catKey c r, fmtPlaceholder c (getCounter (bumpCounter c st) c))]) =
        some (fmtPlaceholder c (getCounter (bumpCounter c st) c)) := by
      unfold seenLookup at hlk ⊢
      rw [bumpCounter_seen, List.find?_append]
      cases hf : st.seen.find? (fun e => e.1 == catKey c r) with
      | some e => rw [hf] at hlk; simp at hlk
      | none => simp [List.find?]
    simp [this]

theorem nextPlaceholder_shape (c : SanitizationCategory) (r : String)
    {s : PlaceholderStore} (hwf : StoreWF s) :
    ∃ n, 1 ≤ n ∧ (nextPlaceholder c s r).1 = fmtPlaceholder c n := by
  unfold nextPlaceholder
  cases hlk : seenLookup (catKey c r) s.seen with
  | some p =>
    have hm := seenLookup_mem hlk
    obtain ⟨c', r', n, h1, h2, h3, _⟩ := hwf.1 _ hm
    obtain ⟨hc, _⟩ := catKey_inj h1.symm
    exact ⟨n, h3, by simpa [hc] using h2⟩
  | none =>
    refine ⟨getCounter (bumpCounter c s) c, ?_, rfl⟩
    rw [getCounter_bump]; simp

/-! ## Claim C6 -/

/-- Claim C6: within one run with one placeholder store, nextPlaceholder called
twice with the same category and raw value returns the identical placeholder; two
distinct raw values never receive the same placeholder (in any categories); each
category counter is monotonic; and every issued token is formatted as the category
prefix (PERSON, CID, TOKEN, COOKIE, TRACK), an underscore and the counter value
zero-padded to width three. -/
theorem claimC6_placeholder_contract :
    (∀ (st : PlaceholderStore) (c : SanitizationCategory) (r : String),
        (nextPlaceholder c (nextPlaceholder c st r).2 r).1 = (nextPlaceholder c st r).1) ∧
    (∀ (reqs : List (SanitizationCategory × String)) (c1 c2 : SanitizationCategory)
        (r1 r2 p : String),
        seenLookup (catKey c1 r1) (runStore reqs).seen = some p →
        seenLookup (catKey c2 r2) (runStore reqs).seen = some p →
        c1 = c2 ∧ r1 = r2) ∧
    (∀ (st : PlaceholderStore) (c c' : SanitizationCategory) (r : String),
        getCounter st c' ≤ getCounter (nextPlaceholder c st r).2 c') ∧
    (∀ (reqs : List (SanitizationCategory × String)) (c : SanitizationCategory) (r : String),
        ∃ n, 1 ≤ n ∧ (nextPlaceholder c (runStore reqs) r).1 =
          categoryPrefix c ++ "_" ++ (⟨padLeft3 (natDigits n)⟩ : String)) ∧
    (categoryPrefix .person = "PERSON" ∧ categoryPrefix .content_id = "CID" ∧
      categoryPrefix .token = "TOKEN" ∧ categoryPrefix .cookie = "COOKIE" ∧
      categoryPrefix .tracking = "TRACK") := by
  refine ⟨nextPlaceholder_memo, ?_, getCounter_next_mono, ?_, rfl, rfl, rfl, rfl, rfl⟩
  · intro reqs c1 c2 r1 r2 p h1 h2
    have hwf := storeWF_runStore reqs
    have m1 := seenLookup_mem h1
    have m2 := seenLookup_mem h2
    have hk := hwf.2 _ m1 _ m2 rfl
    exact catKey_inj hk
  · intro reqs c r
    obtain ⟨n, h1, h2⟩ := nextPlaceholder_shape c r (storeWF_runStore reqs)
    exact ⟨n, h1, h2⟩

/-- Witness for claim C6 at a concrete run. -/
theorem claimC6_witness :
    (seenLookup (catKey .person "alice") (runStore [(.person, "alice")]).seen =
        some "PERSON_001") ∧
    (SanitizationCategory.person = SanitizationCategory.person ∧ "alice" = "alice") := by
  refine ⟨by decide, claimC6_placeholder_contract.2.1 [(.person, "alice")] .person .person
    "alice" "alice" "PERSON_001" (by decide) (by decide)⟩

/-! ## Claim C9 -/

/-- Claim C9 counterexample: a RangeError raised inside the sanitizing phase is
rethrown raw by the catch block of runIngest, so the caller does observe an
untagged exception. -/
theorem claimC9_counterexample :
    ¬ (∀ e : JsError, isTaggedSanitizeOutcome (tagSanitizeError e)) := by
  intro h
  rcases h (.rangeError "boom") with ⟨m, hm⟩ | hm <;>
    simp [tagSanitizeError, isTaggedSanitizeOutcome] at hm

/-- Claim C9 (amended): the catch block of the sanitizing phase re-tags TypeError,
ReferenceError and SyntaxError as sanitize-pipeline failures; any other Error whose
message is exactly Invalid URL becomes the invalid-source-URL kind; every other
exception propagates raw. In runIngest the sanitizing phase surfaces exactly the
translated exception. -/
theorem claimC9_error_translation :
    (∀ m, tagSanitizeError (.typeError m) = .error ("E_INGEST_SANITIZE_FAILED: " ++ m) ∧
      tagSanitizeError (.referenceError m) = .error ("E_INGEST_SANITIZE_FAILED: " ++ m) ∧
      tagSanitizeError (.syntaxError m) = .error ("E_INGEST_SANITIZE_FAILED: " ++ m)) ∧
    (tagSanitizeError (.error "Invalid URL") = .error "E_INGEST_INVALID_SOURCE_URL" ∧
      tagSanitizeError (.rangeError "Invalid URL") = .error "E_INGEST_INVALID_SOURCE_URL") ∧
    (∀ m, m ≠ "Invalid URL" →
      tagSanitizeError (.error m) = .error m ∧
      tagSanitizeError (.rangeError m) = .rangeError m) ∧
    (∀ t, tagSanitizeError (.nonErrorThrown t) = .nonErrorThrown t) ∧
    (∀ (input : IngestInputM) (fs : FsState) (doc : DocM) (e : JsError),
      jsUrlValid input.sourceUrl = true →
      validFixtureName input.fixture = true →
      jsMapGet input.htmlPath fs.htmlFiles = some doc →
      (jsTrimList (renderDocM doc).data).isEmpty = false →
      sanitizeHtmlForFixtureM doc input.sourceUrl (input.policyVersion.getD "v1") = .error e →
      ingestPrepare input fs = .error (tagSanitizeError e)) := by
  refine ⟨fun m => ⟨rfl, rfl, rfl⟩, ⟨rfl, rfl⟩, ?_, fun t => rfl, ?_⟩
  · intro m hm
    constructor <;> simp [tagSanitizeError, hm]
  · intro input fs doc e h1 h2 h3 h4 h5
    simp [ingestPrepare, h1, h2, h3, h4, h5]

/-- Witness for claim C9 at concrete exceptions. -/
theorem claimC9_witness :
    ("boom" ≠ "Invalid URL") ∧ tagSanitizeError (.error "boom") = .error "boom" := by
  exact ⟨by decide, (claimC9_error_translation.2.2.1 "boom" (by decide)).1⟩

/-! ## Claim C3 -/

theorem zc0PatternTryAt_mono {prev : Option Char} {cs : List Char}
    (h : (zc0PatternTryAt 16 prev cs).isSome = true) :
    (zc0PatternTryAt 8 prev cs).isSome = true := by
  cases hb : boundaryBefore prev cs
  · simp [zc0PatternTryAt, hb] at h
  · cases hs : stripLit true "z_c0".data cs
    · simp [zc0PatternTryAt, hb, hs] at h
    · simp only [zc0PatternTryAt, hb, hs, Bool.not_true, Bool.false_eq_true, if_false] at h ⊢
      split_ifs at h ⊢ <;> simp_all <;> omega

theorem patScan_mono {f g : Option Char → List Char → Option Nat}
    (h : ∀ prev cs, (f prev cs).isSome = true → (g prev cs).isSome = true) :
    ∀ prev cs, patScan f prev cs = true → patScan g prev cs = true := by
  intro prev cs
  induction cs generalizing prev with
  | nil => intro hf; simpa [patScan] using hf
  | cons c rest ih =>
    intro hf
    simp only [patScan, Bool.or_eq_true] at hf ⊢
    rcases hf with hf | hf
    · exact Or.inl (h _ _ hf)
    · exact Or.inr (ih _ hf)

/-- Claim C3 counterexample: the text z_c0=abcdefgh carries an 8-character value —
below the spec's 16-character threshold — yet findForbiddenSecretPatterns reports
the z_c0 pattern, so the reported-iff-16-plus claim is false. -/
theorem claimC3_counterexample :
    ¬ (∀ text : String, zc0PatternDesc ∈ findForbiddenSecretPatterns text ↔
        specZc0Sixteen text = true) := by
  intro h
  exact absurd ((h "z_c0=abcdefgh").1 (by decide)) (by decide)

/-- The z_c0 pattern is reported exactly when its 8-threshold test matches (its
description occurs once in the fixed pattern list). -/
theorem zc0Desc_mem_iff (text : String) :
    zc0PatternDesc ∈ findForbiddenSecretPatterns text ↔
      patTest (zc0PatternTryAt 8) text = true := by
  constructor
  · intro hmem
    simp only [findForbiddenSecretPatterns, List.mem_map] at hmem
    obtain ⟨p, hp, hdesc⟩ := hmem
    rw [List.mem_filter] at hp
    obtain ⟨hpl, hpt⟩ := hp
    simp only [FORBIDDEN_SECRET_PATTERNS, List.mem_cons, List.not_mem_nil, or_false] at hpl
    rcases hpl with h | h | h | h | h | h | h <;> subst h <;>
      first
        | exact hpt
        | exact absurd hdesc (by decide)
  · intro ht
    simp only [findForbiddenSecretPatterns, List.mem_map]
    refine ⟨(zc0PatternDesc, patTest (zc0PatternTryAt 8)), ?_, rfl⟩
    rw [List.mem_filter]
    refine ⟨by simp [FORBIDDEN_SECRET_PATTERNS], ht⟩

/-- Claim C3 (amended): findForbiddenSecretPatterns reports the z_c0 pattern
exactly when the text contains a z_c0 cookie assignment whose value has 8 or more
characters (the code's threshold, matching redacted forms too); in particular any
assignment of 16+ characters is reported. -/
theorem claimC3_zc0_gate :
    (∀ text : String, zc0PatternDesc ∈ findForbiddenSecretPatterns text ↔
        patTest (zc0PatternTryAt 8) text = true) ∧
    (∀ text : String, specZc0Sixteen text = true →
        zc0PatternDesc ∈ findForbiddenSecretPatterns text) := by
  refine ⟨zc0Desc_mem_iff, ?_⟩
  intro text h16
  exact (zc0Desc_mem_iff text).2
    (patScan_mono (fun _ _ => zc0PatternTryAt_mono) none text.data h16)

/-! ## Claim C5 -/

theorem startsHttpCi_two {t : List Char} (h : startsHttpCi t = true) :
    ∃ c0 c1 rest, t = c0 :: c1 :: rest ∧ lcEq 'h' c0 = true ∧ lcEq 't' c1 = true := by
  rcases t with _ | ⟨c0, _ | ⟨c1, rest⟩⟩
  · simp [startsHttpCi, subAt, stripLit] at h
  · by_cases hh : lcEq 'h' c0 = true
    · simp [startsHttpCi, subAt, stripLit, hh] at h
    · rw [Bool.not_eq_true] at hh
      simp [startsHttpCi, subAt, stripLit, hh] at h
  · by_cases hh : lcEq 'h' c0 = true
    · by_cases ht : lcEq 't' c1 = true
      · exact ⟨c0, c1, rest, rfl, hh, ht⟩
      · rw [Bool.not_eq_true] at ht
        simp [startsHttpCi, subAt, stripLit, hh, ht] at h
    · rw [Bool.not_eq_true] at hh
      simp [startsHttpCi, subAt, stripLit, hh] at h

theorem startsHttpCi_pathTest_false {t : List Char} (h : startsHttpCi t = true) :
    pathTest t = false := by
  obtain ⟨c0, c1, rest, rfl, hh, ht⟩ := startsHttpCi_two h
  have hc0 : ¬ (c0 = '/') := by intro e; rw [e] at hh; exact absurd hh (by decide)
  have hc1 : ¬ (c1 = ':') := by intro e; rw [e] at ht; exact absurd ht (by decide)
  simp [pathTest, hc0, hc1]

theorem startsHttpCi_urlTest {t : List Char} (h : startsHttpCi t = true) :
    urlTest t = true := by
  unfold startsHttpCi at h
  cases h1 : subAt true "http://".data t
  · rw [h1] at h
    simp only [Bool.false_or] at h
    simp [urlTest, h1, h]
  · simp [urlTest, h1]

theorem startsHttpCi_ne_nil {t : List Char} (h : startsHttpCi t = true) : t ≠ [] := by
  obtain ⟨c0, c1, rest, rfl, _, _⟩ := startsHttpCi_two h
  simp

/-- Claim C5 counterexample: a string that contains an absolute URL and a run of
nine digits but does not begin with the URL classifies as plain_text, not url, so
the containing-both-implies-url reading is false on the code. -/
theorem claimC5_counterexample :
    containsLit false "https://".data "see https://x.com/123456789".data = true ∧
    hasRun isDigitChar 9 "see https://x.com/123456789".data = true ∧
    classifyValue "see https://x.com/123456789" = .plain_text ∧
    classifyValue "see https://x.com/123456789" ≠ .url := by
  refine ⟨by decide, by decide, by decide, by decide⟩

/-- Claim C5 (amended): classifyValue is total (every string maps to exactly one
class), short-circuits to empty exactly on blank input, checks its rules in the
fixed priority order path-like, url, long numeric id, timestamp-like, email-like,
token-like, plain_text on the trimmed input; and a string that after trimming
begins with an absolute http(s) URL and contains a 9+-digit run classifies as url,
not long_numeric_id. -/
theorem claimC5_classifier_total_ordered :
    (∀ s : String, ∃! c, classifyValue s = c) ∧
    (∀ s : String, classifyValue s = .empty ↔ jsTrimList s.data = []) ∧
    (∀ s : String, jsTrimList s.data ≠ [] →
      (pathTest (jsTrimList s.data) = true → classifyValue s = .path_like) ∧
      (pathTest (jsTrimList s.data) = false → urlTest (jsTrimList s.data) = true →
        classifyValue s = .url) ∧
      (pathTest (jsTrimList s.data) = false → urlTest (jsTrimList s.data) = false →
        longNumericTest (jsTrimList s.data) = true → classifyValue s = .long_numeric_id) ∧
      (pathTest (jsTrimList s.data) = false → urlTest (jsTrimList s.data) = false →
        longNumericTest (jsTrimList s.data) = false →
        timestampTest (jsTrimList s.data) = true → classifyValue s = .timestamp_like) ∧
      (pathTest (jsTrimList s.data) = false → urlTest (jsTrimList s.data) = false →
        longNumericTest (jsTrimList s.data) = false →
        timestampTest (jsTrimList s.data) = false →
        emailTest (jsTrimList s.data) = true → classifyValue s = .email_like) ∧
      (pathTest (jsTrimList s.data) = false → urlTest (jsTrimList s.data) = false →
        longNumericTest (jsTrimList s.data) = false →
        timestampTest (jsTrimList s.data) = false → emailTest (jsTrimList s.data) = false →
        tokenLikeTest (jsTrimList s.data) = true → classifyValue s = .token_like) ∧
      (pathTest (jsTrimList s.data) = false → urlTest (jsTrimList s.data) = false →
        longNumericTest (jsTrimList s.data) = false →
        timestampTest (jsTrimList s.data) = false → emailTest (jsTrimList s.data) = false →
        tokenLikeTest (jsTrimList s.data) = false → classifyValue s = .plain_text)) ∧
    (∀ s : String, startsHttpCi (jsTrimList s.data) = true →
      hasRun isDigitChar 9 s.data = true → classifyValue s = .url) := by
  refine ⟨fun s => ⟨classifyValue s, rfl, fun y hy => hy.symm⟩, ?_, ?_, ?_⟩
  · intro s
    simp only [classifyValue]
    split_ifs with h1 h2 h3 h4 h5 h6 h7 <;> simp_all [List.isEmpty_eq_true]
  · intro s hne
    have hemp : (jsTrimList s.data).isEmpty = false := by
      cases h : jsTrimList s.data
      · exact absurd h hne
      · rfl
    refine ⟨?_, ?_, ?_, ?_, ?_, ?_, ?_⟩ <;>
      (intros; simp_all only [classifyValue, Bool.false_eq_true, if_false, if_true])
  · intro s hstart hdig
    have hne : jsTrimList s.data ≠ [] := startsHttpCi_ne_nil hstart
    have hemp : (jsTrimList s.data).isEmpty = false := by
      cases h : jsTrimList s.data
      · exact absurd h hne
      · rfl
    have hp := startsHttpCi_pathTest_false hstart
    have hu := startsHttpCi_urlTest hstart
    simp only [classifyValue, hemp, hp, hu, Bool.false_eq_true, if_false, if_true]

/-- Witness for claim C5 at a concrete URL-with-digits string. -/
theorem claimC5_witness :
    startsHttpCi (jsTrimList "https://www.zhihu.com/question/123456789".data) = true ∧
    hasRun isDigitChar 9 "https://www.zhihu.com/question/123456789".data = true ∧
    classifyValue "https://www.zhihu.com/question/123456789" = .url := by
  refine ⟨by decide, by decide,
    claimC5_classifier_total_ordered.2.2.2 "https://www.zhihu.com/question/123456789"
      (by decide) (by decide)⟩

/-! ## Claim C2 -/

theorem jsMapGet_mem {α : Type} {k : String} {v : α} {m : List (String × α)}
    (h : jsMapGet k m = some v) : (k, v) ∈ m := by
  unfold jsMapGet at h
  cases hf : m.find? (·.1 == k) with
  | none => rw [hf] at h; simp at h
  | some e =>
    rw [hf] at h
    simp at h
    have hp := List.find?_some hf
    have hm := List.mem_of_find?_eq_some hf
    have he : e = (k, v) := by cases e; simp_all
    rw [he] at hm
    exact hm

/-- Claim C2: ok is true iff the violations list is empty (warnings never block);
a raw attribute present on both nodes whose class pair is outside the transition
allow-list contributes its violation message; the allow-list is exactly identical
classes, long_numeric_id to plain_text, token_like to plain_text (url to url being
an identical pair); and a sanitized-only node path contributes a warning. -/
theorem claimC2_diff_contract :
    (∀ raw sanitized : StructureLedgerM,
      (diffStructureLedger raw sanitized).ok = true ↔
        (diffStructureLedger raw sanitized).violations = []) ∧
    (∀ (raw sanitized : StructureLedgerM) (path : String) (rn sn : LedgerNodeM)
        (attr : String),
      jsMapGet path (jsMapOfList (raw.nodes.map (fun n => (n.nodePath, n)))) = some rn →
      jsMapGet path (jsMapOfList (sanitized.nodes.map (fun n => (n.nodePath, n)))) = some sn →
      attr ∈ rn.attributesPresent →
      sn.attributesPresent.contains attr = true →
      isTransitionAllowed ((rn.attributeValueClass.find? (·.1 == attr)).map (·.2))
        ((sn.attributeValueClass.find? (·.1 == attr)).map (·.2)) = false →
      ("value class change not allowed at " ++ path ++ "." ++ attr ++ ": " ++
        showOptClass ((rn.attributeValueClass.find? (·.1 == attr)).map (·.2)) ++ " -> " ++
        showOptClass ((sn.attributeValueClass.find? (·.1 == attr)).map (·.2))) ∈
        (diffStructureLedger raw sanitized).violations) ∧
    (∀ f t : ValueClass, isTransitionAllowed (some f) (some t) = true ↔
      (f = t ∨ (f = .long_numeric_id ∧ t = .plain_text) ∨
        (f = .token_like ∧ t = .plain_text))) ∧
    (∀ (raw sanitized : StructureLedgerM) (path : String) (sn : LedgerNodeM),
      jsMapGet path (jsMapOfList (sanitized.nodes.map (fun n => (n.nodePath, n)))) = some sn →
      jsMapGet path (jsMapOfList (raw.nodes.map (fun n => (n.nodePath, n)))) = none →
      ("new node introduced during sanitization: " ++ path) ∈
        (diffStructureLedger raw sanitized).warnings) := by
  refine ⟨?_, ?_, ?_, ?_⟩
  · intro raw sanitized
    simp only [diffStructureLedger, beq_iff_eq, List.length_eq_zero]
  · intro raw sanitized path rn sn attr hraw hsan hattr hcont hnotallowed
    have hmem := jsMapGet_mem hraw
    simp only [diffStructureLedger]
    rw [List.mem_flatten]
    refine ⟨nodeViolations (jsMapOfList (sanitized.nodes.map (fun n => (n.nodePath, n))))
      (path, rn), List.mem_map_of_mem _ hmem, ?_⟩
    unfold nodeViolations
    rw [hsan]
    simp only
    rw [List.mem_append]
    right
    unfold attrViolations
    rw [List.mem_flatten]
    refine ⟨_, List.mem_map.2 ⟨attr, hattr, rfl⟩, ?_⟩
    have hmem2 : attr ∈ sn.attributesPresent := by
      have := hcont
      simp only [List.contains] at this
      exact List.elem_iff.mp this
    simp [hcont, hnotallowed, hmem2]
  · intro f t
    cases f <;> cases t <;> decide
  · intro raw sanitized path sn hsan hraw
    have hmem := jsMapGet_mem hsan
    simp only [diffStructureLedger]
    rw [List.mem_filterMap]
    exact ⟨(path, sn), hmem, by simp [hraw]⟩

/-- Witness for claim C2 at a concrete pair of one-node ledgers. -/
theorem claimC2_witness :
    jsMapGet "/p"
      (jsMapOfList ((StructureLedgerM.mk "v1"
        [⟨"/p", "div", ["a"], [("a", .email_like)], none⟩]).nodes.map
          (fun n => (n.nodePath, n)))) =
      some ⟨"/p", "div", ["a"], [("a", .email_like)], none⟩ ∧
    ("value class change not allowed at /p.a: email_like -> plain_text") ∈
      (diffStructureLedger ⟨"v1", [⟨"/p", "div", ["a"], [("a", .email_like)], none⟩]⟩
        ⟨"v1", [⟨"/p", "div", ["a"], [("a", .plain_text)], none⟩]⟩).violations := by
  refine ⟨by decide, ?_⟩
  have h := claimC2_diff_contract.2.1
    ⟨"v1", [⟨"/p", "div", ["a"], [("a", .email_like)], none⟩]⟩
    ⟨"v1", [⟨"/p", "div", ["a"], [("a", .plain_text)], none⟩]⟩
    "/p" ⟨"/p", "div", ["a"], [("a", .email_like)], none⟩
    ⟨"/p", "div", ["a"], [("a", .plain_text)], none⟩ "a"
    (by decide) (by decide) (by decide) (by decide) (by decide)
  exact h

/-- Witness for claim C3 at a 16-character cookie value. -/
theorem claimC3_witness :
    specZc0Sixteen "z_c0=abcdefghijklmnop" = true ∧
    zc0PatternDesc ∈ findForbiddenSecretPatterns "z_c0=abcdefghijklmnop" := by
  exact ⟨by decide, claimC3_zc0_gate.2 "z_c0=abcdefghijklmnop" (by decide)⟩

/-! ## Claim C7 -/

theorem spGet_cons_self (k v : String) (rest : List (String × String)) :
    spGet k ((k, v) :: rest) = some v := by
  simp [spGet, List.find?]

theorem spGet_cons_ne {k k' : String} (h : ¬(k' = k)) (v' : String)
    (rest : List (String × String)) : spGet k ((k', v') :: rest) = spGet k rest := by
  have hb : (k' == k) = false := by simp [h]
  simp [spGet, List.find?, hb]

theorem spSet_cons_self {k : String} (p v : String) {rest : List (String × String)}
    (h : ¬(k ∈ rest.map Prod.fst)) : spSet k p ((k, v) :: rest) = (k, p) :: rest := by
  simp only [spSet, beq_self_eq_true, if_true]
  congr 1
  apply List.filter_eq_self.mpr
  intro e he
  have : e.1 ≠ k := by
    intro hk
    exact h (List.mem_map.2 ⟨e, he, hk⟩)
  simp [this]

theorem spSet_cons_ne {k k' : String} (h : ¬(k' = k)) (p v' : String)
    (rest : List (String × String)) :
    spSet k p ((k', v') :: rest) = (k', v') :: spSet k p rest := by
  have hb : (k' == k) = false := by simp [h]
  simp [spSet, hb]

/-- A loop iteration list that does not mention the head key leaves the head
parameter in place. -/
theorem processKeysLoop_skip_head (ks : List String) :
    ∀ (k v : String) (ps : List (String × String)) (st : PlaceholderStore),
    ¬(k ∈ ks) →
    processKeysLoop ks ((k, v) :: ps) st =
      ((k, v) :: (processKeysLoop ks ps st).1, (processKeysLoop ks ps st).2) := by
  induction ks with
  | nil => intro k v ps st _; rfl
  | cons k' ks ih =>
    intro k v ps st hk
    have hne : ¬(k = k') := by
      intro e; exact hk (by rw [e]; exact List.mem_cons_self k' ks)
    have hget : spGet k' ((k, v) :: ps) = spGet k' ps := spGet_cons_ne hne v ps
    have hnot : ¬(k ∈ ks) := fun h => hk (List.mem_cons_of_mem _ h)
    simp only [processKeysLoop, hget]
    split
    · rw [spSet_cons_ne hne, ih _ _ _ _ hnot]
    · split
      · rw [spSet_cons_ne hne, ih _ _ _ _ hnot]
      · exact ih _ _ _ _ hnot

/-- On a duplicate-free parameter list the loop over the key snapshot is the
structural per-parameter recursion. -/
theorem processQueryParams_eq_simple :
    ∀ (ps : List (String × String)) (st : PlaceholderStore),
    (ps.map Prod.fst).Nodup → processQueryParams ps st = processParamsSimple ps st := by
  intro ps
  induction ps with
  | nil => intro st _; rfl
  | cons hd rest ih =>
    intro st hnd
    obtain ⟨k, v⟩ := hd
    simp only [List.map_cons, List.nodup_cons] at hnd
    obtain ⟨hk, hnd'⟩ := hnd
    have hget := spGet_cons_self k v rest
    simp only [processQueryParams, processKeysLoop, List.map_cons, hget, Option.getD_some,
      processParamsSimple, paramStep]
    split
    · rw [spSet_cons_self _ v hk, processKeysLoop_skip_head _ _ _ _ _ hk]
      have := ih (nextPlaceholder .tracking st (k ++ ":" ++ v)).2 hnd'
      simp only [processQueryParams] at this
      rw [this]
    · split
      · rw [spSet_cons_self _ v hk, processKeysLoop_skip_head _ _ _ _ _ hk]
        have := ih (nextPlaceholder .tracking st (k ++ ":" ++ v)).2 hnd'
        simp only [processQueryParams] at this
        rw [this]
      · rw [processKeysLoop_skip_head _ _ _ _ _ hk]
        have := ih st hnd'
        simp only [processQueryParams] at this
        rw [this]

theorem processParamsSimple_fst :
    ∀ (ps : List (String × String)) (st : PlaceholderStore),
    (processParamsSimple ps st).1.map Prod.fst = ps.map Prod.fst := by
  intro ps
  induction ps with
  | nil => intro st; rfl
  | cons hd rest ih =>
    intro st
    obtain ⟨k, v⟩ := hd
    simp [processParamsSimple, ih]

theorem processParamsSimple_append :
    ∀ (ps1 ps2 : List (String × String)) (st : PlaceholderStore),
    processParamsSimple (ps1 ++ ps2) st =
      ((processParamsSimple ps1 st).1 ++
        (processParamsSimple ps2 (processParamsSimple ps1 st).2).1,
       (processParamsSimple ps2 (processParamsSimple ps1 st).2).2) := by
  intro ps1
  induction ps1 with
  | nil => intro ps2 st; rfl
  | cons hd rest ih =>
    intro ps2 st
    obtain ⟨k, v⟩ := hd
    simp [processParamsSimple, ih]

theorem spGet_append_not_mem {k : String} {l1 l2 : List (String × String)}
    (h : ¬(k ∈ l1.map Prod.fst)) : spGet k (l1 ++ l2) = spGet k l2 := by
  induction l1 with
  | nil => rfl
  | cons hd rest ih =>
    obtain ⟨k', v'⟩ := hd
    have hne : ¬(k' = k) := by
      intro e
      exact h (by simp [e])
    rw [List.cons_append, spGet_cons_ne hne]
    exact ih (fun hm => h (by simp at hm ⊢; exact Or.inr hm))

/-- The processed value of a parameter in the middle of a duplicate-free list is
the paramStep decision taken at the store reached after the preceding parameters. -/
theorem spGet_processed_middle (ps1 ps2 : List (String × String)) (k v : String)
    (st : PlaceholderStore)
    (hnd : ((ps1 ++ (k, v) :: ps2).map Prod.fst).Nodup) :
    spGet k (processQueryParams (ps1 ++ (k, v) :: ps2) st).1 =
      some (paramStep k v (processQueryParams ps1 st).2).1 := by
  have hsplit : (ps1 ++ (k, v) :: ps2).map Prod.fst =
      ps1.map Prod.fst ++ k :: ps2.map Prod.fst := by simp
  rw [hsplit] at hnd
  have hnd1 : (ps1.map Prod.fst).Nodup := hnd.of_append_left
  have hdisj := List.disjoint_of_nodup_append hnd
  have hk1 : ¬(k ∈ ps1.map Prod.fst) := fun hm => hdisj hm (List.mem_cons_self _ _)
  rw [processQueryParams_eq_simple _ _ (hsplit ▸ hnd), processQueryParams_eq_simple _ _ hnd1,
    processParamsSimple_append]
  simp only [processParamsSimple]
  rw [spGet_append_not_mem (by rw [processParamsSimple_fst]; exact hk1)]
  exact spGet_cons_self _ _ _

/-- Claim C7 counterexample: utm_id is a utm_* key, but it is not on the code's
allow-list, and with a short opaque value its parameter is left untouched instead
of being replaced with a tracking placeholder. -/
theorem claimC7_counterexample :
    subAt false "utm_".data "utm_id".data = true ∧
    (processQueryParams [("utm_id", "ab")] createPlaceholderStore).1 = [("utm_id", "ab")] ∧
    isTrackingKey "utm_id" = false := by
  exact ⟨by decide, by decide, by decide⟩

/-- Claim C7 (amended): in the query loop of sanitizeUrlLike over a duplicate-free
parameter list, a parameter whose lowercased key is on the fixed allow-list
(utm_source, utm_medium, utm_campaign, utm_content, utm_term, spm, xsec_source,
xsec_token, from, _t — not every utm_* key) is always replaced with a
tracking-category placeholder keyed by key:rawValue regardless of the value's
length; any other parameter is replaced exactly when its value contains a 9+-digit
run or a 24+-character opaque run, so id=42 is left untouched; keys are preserved. -/
theorem claimC7_query_loop :
    (TRACKING_QUERY_KEYS = ["utm_source", "utm_medium", "utm_campaign", "utm_content",
      "utm_term", "spm", "xsec_source", "xsec_token", "from", "_t"]) ∧
    (∀ (ps : List (String × String)) (st : PlaceholderStore),
      (ps.map Prod.fst).Nodup →
      (processQueryParams ps st).1.map Prod.fst = ps.map Prod.fst) ∧
    (∀ (ps1 ps2 : List (String × String)) (k v : String) (st : PlaceholderStore),
      ((ps1 ++ (k, v) :: ps2).map Prod.fst).Nodup →
      isTrackingKey k = true →
      spGet k (processQueryParams (ps1 ++ (k, v) :: ps2) st).1 =
        some (nextPlaceholder .tracking (processQueryParams ps1 st).2 (k ++ ":" ++ v)).1) ∧
    (∀ (ps1 ps2 : List (String × String)) (k v : String) (st : PlaceholderStore),
      ((ps1 ++ (k, v) :: ps2).map Prod.fst).Nodup →
      isTrackingKey k = false →
      (hasRun isDigitChar 9 v.data || hasRun isTokenChar 24 v.data) = true →
      spGet k (processQueryParams (ps1 ++ (k, v) :: ps2) st).1 =
        some (nextPlaceholder .tracking (processQueryParams ps1 st).2 (k ++ ":" ++ v)).1) ∧
    (∀ (ps1 ps2 : List (String × String)) (k v : String) (st : PlaceholderStore),
      ((ps1 ++ (k, v) :: ps2).map Prod.fst).Nodup →
      isTrackingKey k = false →
      (hasRun isDigitChar 9 v.data || hasRun isTokenChar 24 v.data) = false →
      spGet k (processQueryParams (ps1 ++ (k, v) :: ps2) st).1 = some v) := by
  refine ⟨rfl, ?_, ?_, ?_, ?_⟩
  · intro ps st hnd
    rw [processQueryParams_eq_simple _ _ hnd]
    exact processParamsSimple_fst ps st
  · intro ps1 ps2 k v st hnd htr
    rw [spGet_processed_middle _ _ _ _ _ hnd]
    simp [paramStep, htr]
  · intro ps1 ps2 k v st hnd htr hrun
    rw [spGet_processed_middle _ _ _ _ _ hnd]
    simp [paramStep, htr, hrun]
  · intro ps1 ps2 k v st hnd htr hrun
    rw [spGet_processed_middle _ _ _ _ _ hnd]
    simp [paramStep, htr, hrun]

/-- Witness for claim C7 at the spec's Scenario D parameters. -/
theorem claimC7_witness :
    (([] ++ ("utm_source", "abc123") :: [("id", "42")]).map Prod.fst).Nodup ∧
    isTrackingKey "utm_source" = true ∧
    spGet "utm_source"
      (processQueryParams ([] ++ ("utm_source", "abc123") :: [("id", "42")])
        createPlaceholderStore).1 =
      some (nextPlaceholder .tracking (processQueryParams [] createPlaceholderStore).2
        ("utm_source" ++ ":" ++ "abc123")).1 ∧
    spGet "id"
      (processQueryParams ([("utm_source", "abc123")] ++ ("id", "42") :: [])
        createPlaceholderStore).1 = some "42" := by
  refine ⟨by decide, by decide,
    claimC7_query_loop.2.2.1 [] [("id", "42")] "utm_source" "abc123" createPlaceholderStore
      (by decide) (by decide), ?_⟩
  exact claimC7_query_loop.2.2.2.2 [("utm_source", "abc123")] [] "id" "42"
    createPlaceholderStore (by decide) (by decide) (by decide)

/-! ## Claim C10 -/

theorem takeWhile_all {p : Char → Bool} :
    ∀ {l : List Char}, (∀ c ∈ l, p c = true) → l.takeWhile p = l := by
  intro l
  induction l with
  | nil => intro _; rfl
  | cons c rest ih =>
    intro hall
    rw [List.takeWhile_cons, hall c (List.mem_cons_self _ _)]
    simp [ih (fun d hd => hall d (List.mem_cons_of_mem _ hd))]

theorem runEndBoundaryOk_full {l : List Char} {lc : Char}
    (hlast : l.getLast? = some lc) (hw : isWordChar lc = true) :
    runEndBoundaryOk l l.length = true := by
  unfold runEndBoundaryOk
  rw [List.take_length, List.drop_length, hlast]
  simpa using hw

theorem peopleTryAt_full (prev : Option Char) {h : String}
    (hv : isValidHandle h = true) :
    peopleTryAt prev ('/' :: 'p' :: 'e' :: 'o' :: 'p' :: 'l' :: 'e' :: '/' :: h.data) =
      some (8 + h.data.length) := by
  simp only [isValidHandle, Bool.and_eq_true, decide_eq_true_eq, List.all_eq_true] at hv
  obtain ⟨⟨⟨hlen, hall⟩, hhead⟩, hlast⟩ := hv
  have hstrip : stripLit true "/people/".data
      ('/' :: 'p' :: 'e' :: 'o' :: 'p' :: 'l' :: 'e' :: '/' :: h.data) = some h.data := rfl
  simp only [peopleTryAt, hstrip]
  obtain ⟨c0, hs, hd⟩ : ∃ c0 hs, h.data = c0 :: hs := by
    cases hds : h.data with
    | nil => rw [hds] at hlen; simp at hlen
    | cons a l => exact ⟨a, l, rfl⟩
  have hw0 : isWordChar c0 = true := by rw [hd] at hhead; simpa using hhead
  obtain ⟨lc, hlc⟩ : ∃ lc, h.data.getLast? = some lc := by
    rw [hd]; exact ⟨(c0 :: hs).getLast (by simp), List.getLast?_eq_getLast _ _⟩
  have hwl : isWordChar lc = true := by rw [hlc] at hlast; simpa using hlast
  have htake : h.data.takeWhile isHandleChar = h.data := takeWhile_all hall
  rw [hd]
  simp only [List.head?, hw0, Bool.not_true, Bool.false_eq_true, if_false]
  rw [← hd, htake]
  have hnotlt : ¬(h.data.length < 3) := by omega
  have hk : h.data.length + 1 - 3 = (h.data.length - 3) + 1 := by omega
  simp only [bestGoodLen, hnotlt, if_false, hk, bestGoodLenAux]
  have h3 : 3 + (h.data.length - 3) = h.data.length := by omega
  rw [h3, runEndBoundaryOk_full hlc hwl]
  simp [h3]

theorem runReplaceFuel_consume_all {tryAt : Option Char → List Char → Option Nat}
    {mkRepl : List Char → PlaceholderStore → List Char × PlaceholderStore}
    {c : Char} {rest : List Char} {st : PlaceholderStore} {prev : Option Char}
    (hmatch : tryAt prev (c :: rest) = some (rest.length + 1)) :
    runReplaceFuel tryAt mkRepl ((c :: rest).length + 1) prev (c :: rest) st =
      ((mkRepl (c :: rest) st).1, (mkRepl (c :: rest) st).2) := by
  simp only [List.length_cons, runReplaceFuel, hmatch]
  rw [List.take_succ_cons, List.drop_succ_cons]
  rw [List.take_length, List.drop_length]
  simp [runReplaceFuel]

theorem nextPlaceholder_idem (st : PlaceholderStore) (c : SanitizationCategory)
    (r : String) :
    nextPlaceholder c (nextPlaceholder c st r).2 r =
      ((nextPlaceholder c st r).1, (nextPlaceholder c st r).2) := by
  unfold nextPlaceholder
  cases hlk : seenLookup (catKey c r) st.seen with
  | some p => simp [hlk]
  | none =>
    simp only [hlk]
    have : seenLookup (catKey c r)
        ((bumpCounter c st).seen ++
          [(catKey c r, fmtPlaceholder c (getCounter (bumpCounter c st) c))]) =
        some (fmtPlaceholder c (getCounter (bumpCounter c st) c)) := by
      unfold seenLookup at hlk ⊢
      rw [bumpCounter_seen, List.find?_append]
      cases hf : st.seen.find? (fun e => e.1 == catKey c r) with
      | some e => rw [hf] at hlk; simp at hlk
      | none => simp [List.find?]
    simp [this]

/-- One /people/ segment with any valid handle is rewritten to the person
placeholder memoized under the constant raw value people. -/
theorem replacePeopleRoute_single (st : PlaceholderStore) {h : String}
    (hv : isValidHandle h = true) :
    replacePeopleRoute ("/people/" ++ h) st =
      ("/people/" ++ (nextPlaceholder .person st "people").1,
        (nextPlaceholder .person st "people").2) := by
  have hdata : ("/people/" ++ h).data =
      '/' :: 'p' :: 'e' :: 'o' :: 'p' :: 'l' :: 'e' :: '/' :: h.data := rfl
  have hmatch : peopleTryAt none
      ('/' :: ('p' :: 'e' :: 'o' :: 'p' :: 'l' :: 'e' :: '/' :: h.data)) =
      some (('p' :: 'e' :: 'o' :: 'p' :: 'l' :: 'e' :: '/' :: h.data).length + 1) := by
    rw [peopleTryAt_full none hv]
    congr 1
    simp only [List.length_cons]
    omega
  unfold replacePeopleRoute strReplace runReplace
  rw [hdata]
  rw [runReplaceFuel_consume_all hmatch]
  unfold peopleMkRepl
  constructor

/-- Claim C10: within one run, every /people/ handle segment is replaced with one
and the same person placeholder, keyed by the constant raw value people: the
rewrite result and the store update are independent of the handle, a second
segment with a distinct handle receives the identical placeholder, and the handle
itself is never memoized (the store after is exactly the store after one
nextPlaceholder request for people). -/
theorem claimC10_people_constant_key :
    ∀ (st : PlaceholderStore) (h1 h2 : String),
    isValidHandle h1 = true → isValidHandle h2 = true →
    (replacePeopleRoute ("/people/" ++ h1) st).1 =
        "/people/" ++ (nextPlaceholder .person st "people").1 ∧
    (replacePeopleRoute ("/people/" ++ h1) st).2 =
        (nextPlaceholder .person st "people").2 ∧
    (replacePeopleRoute ("/people/" ++ h2) (replacePeopleRoute ("/people/" ++ h1) st).2).1 =
        (replacePeopleRoute ("/people/" ++ h1) st).1 ∧
    (replacePeopleRoute ("/people/" ++ h2) (replacePeopleRoute ("/people/" ++ h1) st).2).2 =
        (replacePeopleRoute ("/people/" ++ h1) st).2 := by
  intro st h1 h2 hv1 hv2
  have e1 := replacePeopleRoute_single st hv1
  have e2 := replacePeopleRoute_single (nextPlaceholder .person st "people").2 hv2
  have hidem := nextPlaceholder_idem st .person "people"
  refine ⟨by rw [e1], by rw [e1], ?_, ?_⟩
  · simp only [e1, e2, hidem]
  · simp only [e1, e2, hidem]

/-- Witness for claim C10 at two distinct concrete handles. -/
theorem claimC10_witness :
    isValidHandle "alice" = true ∧ isValidHandle "bob-42" = true ∧
    (replacePeopleRoute ("/people/" ++ "alice") createPlaceholderStore).1 =
      "/people/" ++ (nextPlaceholder .person createPlaceholderStore "people").1 := by
  exact ⟨by decide, by decide,
    (claimC10_people_constant_key createPlaceholderStore "alice" "bob-42"
      (by decide) (by decide)).1⟩

/-! ## Claim C8 -/

theorem jsMapGet_cons_self {α : Type} (k : String) (v : α)
    (rest : List (String × α)) : jsMapGet k ((k, v) :: rest) = some v := by
  simp [jsMapGet, List.find?]

theorem jsMapGet_cons_ne {α : Type} {k a : String} (h : ¬(a = k)) {b : α}
    {rest : List (String × α)} : jsMapGet k ((a, b) :: rest) = jsMapGet k rest := by
  have hb : (a == k) = false := by simp [h]
  simp [jsMapGet, List.find?, hb]

theorem jsMapGet_jsMapSet {α : Type} (k k' : String) (v : α) :
    ∀ m : List (String × α),
    jsMapGet k (jsMapSet k' v m) = if k' == k then some v else jsMapGet k m := by
  intro m
  induction m with
  | nil =>
    by_cases hk : k' = k
    · subst hk; simp [jsMapGet, jsMapSet, List.find?]
    · have hb : (k' == k) = false := by simp [hk]
      simp [jsMapGet, jsMapSet, List.find?, hb]
  | cons hd rest ih =>
    obtain ⟨a, b⟩ := hd
    by_cases hak : a = k'
    · subst hak
      simp only [jsMapSet, beq_self_eq_true, if_true]
      by_cases hk : a = k
      · subst hk
        rw [jsMapGet_cons_self, jsMapGet_cons_self]
        simp
      · rw [jsMapGet_cons_ne hk, jsMapGet_cons_ne hk]
        have hb : (a == k) = false := by simp [hk]
        simp [hb]
    · have hb2 : (a == k') = false := by simp [hak]
      simp only [jsMapSet, hb2, Bool.false_eq_true, if_false]
      by_cases hk : a = k
      · subst hk
        rw [jsMapGet_cons_self, jsMapGet_cons_self]
        have hka : ¬(k' = a) := fun e => hak e.symm
        have hb4 : (k' == a) = false := by simp [hka]
        simp [hb4]
      · rw [jsMapGet_cons_ne hk, jsMapGet_cons_ne hk]
        exact ih

theorem fileExists_setFile (p q c : String) (fs : FsState) :
    fileExists p (setFile q c fs) = if q == p then true else fileExists p fs := by
  simp only [fileExists, setFile, jsMapGet_jsMapSet]
  cases hb : q == p <;> simp

theorem setFile_htmlFiles (p c : String) (fs : FsState) :
    (setFile p c fs).htmlFiles = fs.htmlFiles := rfl

theorem ingestWrites_htmlFiles (input : IngestInputM) (doc : DocM)
    (san : SanitizationResultM) (fs : FsState) (now : String) :
    (ingestWrites input doc san fs now).htmlFiles = fs.htmlFiles := by
  simp only [ingestWrites]
  split <;> rfl

theorem ingestWritePhase_sndHtmlFiles (input : IngestInputM) (doc : DocM)
    (san : SanitizationResultM) (fs : FsState) (now : String) :
    ((ingestWritePhase input doc san fs now).2).htmlFiles = fs.htmlFiles := by
  unfold ingestWritePhase
  split_ifs <;> first
    | rfl
    | exact ingestWrites_htmlFiles input doc san fs now

theorem runIngestM_htmlFiles (input : IngestInputM) (fs : FsState) (now : String) :
    ((runIngestM input fs now).2).htmlFiles = fs.htmlFiles := by
  unfold runIngestM
  cases hprep : ingestPrepare input fs with
  | error e => rfl
  | ok pr =>
    obtain ⟨doc, san⟩ := pr
    exact ingestWritePhase_sndHtmlFiles input doc san fs now

theorem ingestPrepare_files_congr (input : IngestInputM) {fs fs' : FsState}
    (h : fs.htmlFiles = fs'.htmlFiles) : ingestPrepare input fs = ingestPrepare input fs' := by
  simp only [ingestPrepare, h]

theorem ingestWritePhase_ok_elim {input : IngestInputM} {doc : DocM}
    {san : SanitizationResultM} {fs : FsState} {now : String} {r : IngestResultM}
    (h : (ingestWritePhase input doc san fs now).1 = .ok r) :
    findForbiddenSecretPatterns san.sanitizedHtml = [] ∧
    findForbiddenSecretPatterns (renderMapJson san.map) = [] ∧
    fileExists (sanitizedHtmlPathOf input) fs = false ∧
    fileExists (mapPathOf input) fs = false ∧
    (ingestWritePhase input doc san fs now).2 = ingestWrites input doc san fs now := by
  unfold ingestWritePhase at h ⊢
  split_ifs at h ⊢ with h1 h2 h3 h4 <;>
    first
      | exact Except.noConfusion h
      | (rw [Bool.or_eq_true, not_or] at h1
         obtain ⟨ha, hb⟩ := h1
         refine ⟨List.isEmpty_eq_true.mp (by simpa using ha),
           List.isEmpty_eq_true.mp (by simpa using hb), ?_, ?_, rfl⟩
         · simpa using h2
         · simpa using h3)

theorem runIngestM_ok_elim {input : IngestInputM} {fs : FsState} {now : String}
    {r : IngestResultM} (h : (runIngestM input fs now).1 = .ok r) :
    ∃ doc san, ingestPrepare input fs = .ok (doc, san) ∧
      findForbiddenSecretPatterns san.sanitizedHtml = [] ∧
      findForbiddenSecretPatterns (renderMapJson san.map) = [] ∧
      fileExists (sanitizedHtmlPathOf input) fs = false ∧
      fileExists (mapPathOf input) fs = false ∧
      (runIngestM input fs now).2 = ingestWrites input doc san fs now := by
  unfold runIngestM at h ⊢
  cases hprep : ingestPrepare input fs with
  | error e => rw [hprep] at h; simp at h
  | ok pr =>
    obtain ⟨doc, san⟩ := pr
    rw [hprep] at h
    obtain ⟨h1, h2, h3, h4, h5⟩ := ingestWritePhase_ok_elim (r := r) h
    exact ⟨doc, san, rfl, h1, h2, h3, h4, h5⟩

theorem fileExists_ingestWrites_sh (input : IngestInputM) (doc : DocM)
    (san : SanitizationResultM) (fs : FsState) (now : String) :
    fileExists (sanitizedHtmlPathOf input) (ingestWrites input doc san fs now) = true := by
  simp only [ingestWrites, fileExists_setFile]
  split <;> (rename_i hdbg; simp [fileExists_setFile])

theorem runIngestM_prep_ok {input : IngestInputM} {fs : FsState} {doc : DocM}
    {san : SanitizationResultM} (now : String)
    (h : ingestPrepare input fs = .ok (doc, san)) :
    runIngestM input fs now = ingestWritePhase input doc san fs now := by
  unfold runIngestM
  rw [h]

/-- Claim C8: an existing sanitized-HTML or placeholder-map artifact makes
runIngest abort without touching the filesystem (the pre-flight checks precede
every write); consequently a second invocation with the same fixture name and
destination after a successful one aborts with the target-exists error on the
sanitized-HTML path and leaves the first invocation's artifacts unmodified. -/
theorem claimC8_idempotent_target_safety :
    (∀ (input : IngestInputM) (fs : FsState) (now : String),
      fileExists (sanitizedHtmlPathOf input) fs = true ∨
        fileExists (mapPathOf input) fs = true →
      (∀ r, (runIngestM input fs now).1 ≠ .ok r) ∧ (runIngestM input fs now).2 = fs) ∧
    (∀ (input : IngestInputM) (fs : FsState) (now now' : String) (r : IngestResultM),
      (runIngestM input fs now).1 = .ok r →
      (runIngestM input (runIngestM input fs now).2 now').1 =
        .error (.error ("E_INGEST_TARGET_EXISTS: " ++ sanitizedHtmlPathOf input)) ∧
      (runIngestM input (runIngestM input fs now).2 now').2 =
        (runIngestM input fs now).2) := by
  constructor
  · intro input fs now hex
    cases hprep : ingestPrepare input fs with
    | error e =>
      have heq : runIngestM input fs now = (.error e, fs) := by
        unfold runIngestM
        rw [hprep]
      rw [heq]
      exact ⟨fun r h => Except.noConfusion h, rfl⟩
    | ok pr =>
      obtain ⟨doc, san⟩ := pr
      rw [runIngestM_prep_ok now hprep]
      unfold ingestWritePhase
      split_ifs with h1 h2 h3 h4
      all_goals try exact ⟨fun r h => Except.noConfusion h, rfl⟩
      all_goals exfalso
      all_goals rcases hex with hx | hx
      all_goals first
        | exact h2 hx
        | exact h3 hx
  · intro input fs now now' r hok
    obtain ⟨doc, san, hprep, hh1, hh2, _, _, hfs⟩ := runIngestM_ok_elim hok
    have hhtml : ((runIngestM input fs now).2).htmlFiles = fs.htmlFiles :=
      runIngestM_htmlFiles input fs now
    have hprep2 : ingestPrepare input (runIngestM input fs now).2 = .ok (doc, san) := by
      rw [ingestPrepare_files_congr input hhtml]
      exact hprep
    have hex : fileExists (sanitizedHtmlPathOf input) (runIngestM input fs now).2 = true := by
      rw [hfs]
      exact fileExists_ingestWrites_sh input doc san fs now
    generalize hgen : (runIngestM input fs now).2 = fs1 at hprep2 hex ⊢
    have hrun2 : runIngestM input fs1 now' =
        (.error (.error ("E_INGEST_TARGET_EXISTS: " ++ sanitizedHtmlPathOf input)), fs1) := by
      rw [runIngestM_prep_ok now' hprep2]
      unfold ingestWritePhase
      rw [hh1, hh2]
      simp [hex]
    exact ⟨by rw [hrun2], by rw [hrun2]⟩

/-- Witness for claim C8: the first run succeeds, the second aborts with the
target-exists error and changes nothing. -/
theorem claimC8_witness :
    (runIngestM c8input c8fs "t1").1 = .ok c8result ∧
    (runIngestM c8input (runIngestM c8input c8fs "t1").2 "t2").1 =
      .error (.error ("E_INGEST_TARGET_EXISTS: " ++ sanitizedHtmlPathOf c8input)) ∧
    (runIngestM c8input (runIngestM c8input c8fs "t1").2 "t2").2 =
      (runIngestM c8input c8fs "t1").2 := by
  refine ⟨by rfl, ?_, ?_⟩
  · exact (claimC8_idempotent_target_safety.2 c8input c8fs "t1" "t2" c8result (by rfl)).1
  · exact (claimC8_idempotent_target_safety.2 c8input c8fs "t1" "t2" c8result (by rfl)).2

/-! ## Claim C4 -/

theorem digitChar_token (n : Nat) : isTokenChar (digitChar n) = true := by
  rcases n with _|_|_|_|_|_|_|_|_|n <;> first | decide | rfl

theorem natDigitsFuel_token (f : Nat) :
    ∀ n c, c ∈ natDigitsFuel f n → isTokenChar c = true := by
  induction f with
  | zero => intro n c h; simp [natDigitsFuel] at h
  | succ f ih =>
    intro n c h
    unfold natDigitsFuel at h
    split at h
    · rw [List.mem_singleton] at h
      rw [h]
      exact digitChar_token n
    · rw [List.mem_append] at h
      rcases h with h | h
      · exact ih _ _ h
      · rw [List.mem_singleton] at h
        rw [h]
        exact digitChar_token _

theorem padLeft3_natDigits_token (n : Nat) :
    ∀ c ∈ padLeft3 (natDigits n), isTokenChar c = true := by
  intro c h
  unfold padLeft3 at h
  split at h
  · exact natDigitsFuel_token (n + 1) n c h
  · rw [List.mem_append] at h
    rcases h with h | h
    · rw [List.mem_replicate] at h
      rw [h.2]
      decide
    · exact natDigitsFuel_token (n + 1) n c h

theorem padLeft3_length_ge (cs : List Char) : 3 ≤ (padLeft3 cs).length := by
  unfold padLeft3
  split
  · omega
  · rw [List.length_append, List.length_replicate]
    omega

/-- The normalized redaction z_c0=COOKIE_nnn of the cookie replace still matches
the secret scanner's z_c0 pattern: its value part is 10 or more token characters. -/
theorem zc0_scanner_hits_cookie (n : Nat) :
    patTest (zc0PatternTryAt 8) ("z_c0=" ++ fmtPlaceholder .cookie n) = true := by
  have htake : (padLeft3 (natDigits n)).takeWhile isTokenChar = padLeft3 (natDigits n) :=
    takeWhile_all (padLeft3_natDigits_token n)
  have hlen := padLeft3_length_ge (natDigits n)
  have hdata : ("z_c0=" ++ fmtPlaceholder .cookie n).data =
      'z' :: '_' :: 'c' :: '0' :: '=' :: 'C' :: 'O' :: 'O' :: 'K' :: 'I' :: 'E' :: '_' ::
        padLeft3 (natDigits n) := by
    rw [String.data_append, fmtPlaceholder_data]
    rfl
  have hrun : (('C' :: 'O' :: 'O' :: 'K' :: 'I' :: 'E' :: '_' ::
      padLeft3 (natDigits n)).takeWhile isTokenChar).length =
      7 + (padLeft3 (natDigits n)).length := by
    rw [List.takeWhile_cons_of_pos (by decide), List.takeWhile_cons_of_pos (by decide),
        List.takeWhile_cons_of_pos (by decide), List.takeWhile_cons_of_pos (by decide),
        List.takeWhile_cons_of_pos (by decide), List.takeWhile_cons_of_pos (by decide),
        List.takeWhile_cons_of_pos (by decide), htake]
    simp only [List.length_cons]
    omega
  have hsep : (('=' :: 'C' :: 'O' :: 'O' :: 'K' :: 'I' :: 'E' :: '_' ::
      padLeft3 (natDigits n)).takeWhile zc0SepChar) = ['='] := by
    rw [List.takeWhile_cons_of_pos (by decide), List.takeWhile_cons_of_neg (by decide)]
  have hb : boundaryBefore none ('z' :: '_' :: 'c' :: '0' :: '=' :: 'C' :: 'O' :: 'O' ::
      'K' :: 'I' :: 'E' :: '_' :: padLeft3 (natDigits n)) = true := rfl
  have hs : stripLit true "z_c0".data ('z' :: '_' :: 'c' :: '0' :: '=' :: 'C' :: 'O' ::
      'O' :: 'K' :: 'I' :: 'E' :: '_' :: padLeft3 (natDigits n)) =
      some ('=' :: 'C' :: 'O' :: 'O' :: 'K' :: 'I' :: 'E' :: '_' ::
        padLeft3 (natDigits n)) := rfl
  have htry : (zc0PatternTryAt 8 none ('z' :: '_' :: 'c' :: '0' :: '=' :: 'C' :: 'O' ::
      'O' :: 'K' :: 'I' :: 'E' :: '_' :: padLeft3 (natDigits n))).isSome = true := by
    simp only [zc0PatternTryAt, hb, hs, Bool.not_true, Bool.false_eq_true, if_false,
      hsep, hrun, List.length_cons, List.length_nil]
    norm_num
    omega
  unfold patTest
  rw [hdata]
  unfold patScan
  rw [Bool.or_eq_true]
  exact Or.inl htry

/-- A nonempty secret scan over the sanitized HTML makes runIngest abort with the
secret-pattern error, the filesystem untouched. -/
theorem secretGate_aborts {input : IngestInputM} {fs : FsState} (now : String)
    {doc : DocM} {san : SanitizationResultM}
    (hprep : ingestPrepare input fs = .ok (doc, san))
    (hne : findForbiddenSecretPatterns san.sanitizedHtml ≠ []) :
    (runIngestM input fs now).1 = .error (.error ("E_INGEST_SECRET_PATTERN: " ++
      String.intercalate ", " (findForbiddenSecretPatterns san.sanitizedHtml ++
        findForbiddenSecretPatterns (renderMapJson san.map)))) ∧
    (runIngestM input fs now).2 = fs := by
  rw [runIngestM_prep_ok now hprep]
  have hie : (findForbiddenSecretPatterns san.sanitizedHtml).isEmpty = false := by
    cases hl : findForbiddenSecretPatterns san.sanitizedHtml
    · exact absurd hl hne
    · rfl
  unfold ingestWritePhase
  simp only [hie, Bool.not_false, Bool.true_or, if_true]
  exact ⟨trivial, trivial⟩

/-- Claim C4 (amended): every cookie placeholder the store issues yields a
normalized redaction z_c0=COOKIE_nnn that itself matches the secret scanner's
z_c0 pattern (the pattern only requires a value of 8 or more characters of
[A-Za-z0-9._-]); and whenever the z_c0 pattern does match the sanitized HTML of a
successfully prepared ingest, runIngest aborts in the secret-scanning phase with
the secret-pattern error and performs no write. The sanitizer, however, only
rewrites z_c0 assignments in sanitized text and eligible attributes, so an input
carrying an assignment elsewhere need not abort (see the counterexample). -/
theorem claimC4_redacted_zc0_scan :
    (∀ (reqs : List (SanitizationCategory × String)) (r : String),
      zc0PatternDesc ∈ findForbiddenSecretPatterns
        ("z_c0=" ++ (nextPlaceholder .cookie (runStore reqs) r).1)) ∧
    (∀ (input : IngestInputM) (fs : FsState) (now : String) (doc : DocM)
        (san : SanitizationResultM),
      ingestPrepare input fs = .ok (doc, san) →
      zc0PatternDesc ∈ findForbiddenSecretPatterns san.sanitizedHtml →
      (runIngestM input fs now).1 = .error (.error ("E_INGEST_SECRET_PATTERN: " ++
        String.intercalate ", " (findForbiddenSecretPatterns san.sanitizedHtml ++
          findForbiddenSecretPatterns (renderMapJson san.map)))) ∧
      (runIngestM input fs now).2 = fs) := by
  constructor
  · intro reqs r
    obtain ⟨m, _, hp⟩ := nextPlaceholder_shape .cookie r (storeWF_runStore reqs)
    rw [hp]
    exact (zc0Desc_mem_iff _).2 (zc0_scanner_hits_cookie m)
  · intro input fs now doc san hprep hmem
    have hne : findForbiddenSecretPatterns san.sanitizedHtml ≠ [] := by
      intro h
      rw [h] at hmem
      exact List.not_mem_nil _ hmem
    exact secretGate_aborts now hprep hne

/-- Claim C4 counterexample: an input document whose z_c0 cookie assignment sits
in an attribute the sanitizer does not rewrite, with a value below the scanner
threshold, is ingested successfully — runIngest does not always abort on inputs
containing a z_c0 assignment. -/
theorem claimC4_counterexample :
    ¬ (∀ (input : IngestInputM) (fs : FsState) (now : String) (doc : DocM),
        jsMapGet input.htmlPath fs.htmlFiles = some doc →
        patTest zc0AssignTryAt (renderDocM doc) = true →
        ∀ r, (runIngestM input fs now).1 ≠ .ok r) := by
  intro h
  exact h c4input c4fs "t1" c4doc (by rfl) (by rfl) c4result (by rfl)

/-- Witness for claim C4: a z_c0 assignment in a sanitized attribute is redacted,
the scan fires on the redaction, and the run aborts with no write. -/
theorem claimC4_witness :
    (runIngestM c4einput c4efs "t1").1 = .error (.error ("E_INGEST_SECRET_PATTERN: " ++
      String.intercalate ", " (findForbiddenSecretPatterns c4esan.sanitizedHtml ++
        findForbiddenSecretPatterns (renderMapJson c4esan.map)))) ∧
    (runIngestM c4einput c4efs "t1").2 = c4efs :=
  claimC4_redacted_zc0_scan.2 c4einput c4efs "t1" c4edoc c4esan (by rfl) (by decide)

/-! ## Claim C1 -/


theorem sanitizeAttrList_keys (ip : String) :
    ∀ (attrs : List (String × String)) (st : PlaceholderStore),
      (sanitizeAttrList ip attrs st).1.map Prod.fst = attrs.map Prod.fst := by
  intro attrs
  induction attrs with
  | nil => intro st; rfl
  | cons kv rest ih =>
    intro st
    obtain ⟨key, value⟩ := kv
    unfold sanitizeAttrList
    split_ifs with h
    · simp [ih]
    · simp [ih]

theorem sanitizeElementAttrs_shape (e : MElement) (st : PlaceholderStore) :
    ElemShapeEq e (sanitizeElementAttrs e st).1 := by
  unfold sanitizeElementAttrs ElemShapeEq
  refine ⟨rfl, rfl, ?_⟩
  exact sanitizeAttrList_keys _ e.attrs st

theorem sanitizeElementText_shape (e : MElement) (st : PlaceholderStore) :
    ElemShapeEq e (sanitizeElementText e st).1 := by
  unfold sanitizeElementText
  cases h1 : containerTags.contains e.tagName && !(jsTrimList e.text.data).isEmpty with
  | false =>
    rw [if_neg (by simp)]
    exact ⟨rfl, rfl, rfl⟩
  | true =>
    rw [if_pos rfl]
    rcases hs : sanitizeScalar e.text st .text with ⟨sText, st1⟩
    dsimp only
    by_cases h2 : sText ≠ e.text
    · rw [if_pos h2]
      rcases hs2 : sanitizeScalar e.text st1 .text with ⟨leafText, st2⟩
      dsimp only
      exact ⟨rfl, rfl, rfl⟩
    · rw [if_neg h2]
      exact ⟨rfl, rfl, rfl⟩

theorem mapWithStore_shape {f : MElement → PlaceholderStore → MElement × PlaceholderStore}
    (hf : ∀ e st, ElemShapeEq e (f e st).1) :
    ∀ (doc : DocM) (st : PlaceholderStore),
      List.Forall₂ ElemShapeEq doc (mapWithStore f doc st).1 := by
  intro doc
  induction doc with
  | nil => intro st; exact List.Forall₂.nil
  | cons e es ih =>
    intro st
    unfold mapWithStore
    exact List.Forall₂.cons (hf e st) (ih _)

theorem elemShapeEq_trans {a b c : MElement} (h1 : ElemShapeEq a b)
    (h2 : ElemShapeEq b c) : ElemShapeEq a c := by
  obtain ⟨p1, t1, a1⟩ := h1
  obtain ⟨p2, t2, a2⟩ := h2
  exact ⟨p2.trans p1, t2.trans t1, a2.trans a1⟩

theorem forall₂_trans {R : α → α → Prop} (hR : ∀ a b c, R a b → R b c → R a c) :
    ∀ {l1 l2 l3 : List α}, List.Forall₂ R l1 l2 → List.Forall₂ R l2 l3 →
      List.Forall₂ R l1 l3 := by
  intro l1 l2 l3 h12
  induction h12 generalizing l3 with
  | nil => intro h; cases h; exact List.Forall₂.nil
  | cons hab hrest ih =>
    intro h
    cases h with
    | cons hbc hrest2 => exact List.Forall₂.cons (hR _ _ _ hab hbc) (ih hrest2)

theorem elemShapeEq_trans3 :
    ∀ a b c : MElement, ElemShapeEq a b → ElemShapeEq b c → ElemShapeEq a c :=
  fun _ _ _ => elemShapeEq_trans

theorem sanitizeDocM_shape (doc : DocM) (st : PlaceholderStore) :
    List.Forall₂ ElemShapeEq doc (sanitizeDocM doc st).1 := by
  unfold sanitizeDocM
  have h1 : List.Forall₂ ElemShapeEq doc (mapWithStore sanitizeElementAttrs doc st).1 :=
    mapWithStore_shape sanitizeElementAttrs_shape doc st
  have h2 : List.Forall₂ ElemShapeEq (mapWithStore sanitizeElementAttrs doc st).1
      (mapWithStore sanitizeElementText (mapWithStore sanitizeElementAttrs doc st).1
        (mapWithStore sanitizeElementAttrs doc st).2).1 :=
    mapWithStore_shape sanitizeElementText_shape _ _
  exact forall₂_trans elemShapeEq_trans3 h1 h2

theorem forall₂_map {α β : Type} {R : α → α → Prop} {S : β → β → Prop} (f : α → β)
    (hf : ∀ a b, R a b → S (f a) (f b)) :
    ∀ {l1 l2 : List α}, List.Forall₂ R l1 l2 → List.Forall₂ S (l1.map f) (l2.map f) := by
  intro l1 l2 h
  induction h with
  | nil => exact List.Forall₂.nil
  | cons hab hrest ih => exact List.Forall₂.cons (hf _ _ hab) ih

theorem mkLedgerNode_shape : ∀ e e' : MElement, ElemShapeEq e e' →
    NodeShapeEq (mkLedgerNode e) (mkLedgerNode e') := by
  intro e e' h
  obtain ⟨hp, ht, ha⟩ := h
  unfold mkLedgerNode NodeShapeEq
  refine ⟨hp, ht, ?_⟩
  show insertionSort strLeB (e'.attrs.map Prod.fst) =
    insertionSort strLeB (e.attrs.map Prod.fst)
  rw [ha]

theorem insertSorted_forall₂ {α : Type} {R : α → α → Prop} {le : α → α → Bool}
    (hle : ∀ a b x y, R a b → R x y → le a x = le b y) :
    ∀ {a b : α} {l1 l2 : List α}, R a b → List.Forall₂ R l1 l2 →
      List.Forall₂ R (insertSorted le a l1) (insertSorted le b l2) := by
  intro a b l1 l2 hab h
  induction h with
  | nil => exact List.Forall₂.cons hab List.Forall₂.nil
  | cons hxy hrest ih =>
    rename_i x y t1 t2
    unfold insertSorted
    rw [hle a b x y hab hxy]
    cases hc : le b y with
    | true =>
      rw [if_pos rfl, if_pos rfl]
      exact List.Forall₂.cons hab (List.Forall₂.cons hxy hrest)
    | false =>
      rw [if_neg (by simp), if_neg (by simp)]
      exact List.Forall₂.cons hxy ih

theorem insertionSort_forall₂ {α : Type} {R : α → α → Prop} {le : α → α → Bool}
    (hle : ∀ a b x y, R a b → R x y → le a x = le b y) :
    ∀ {l1 l2 : List α}, List.Forall₂ R l1 l2 →
      List.Forall₂ R (insertionSort le l1) (insertionSort le l2) := by
  intro l1 l2 h
  induction h with
  | nil => exact List.Forall₂.nil
  | cons hab hrest ih => exact insertSorted_forall₂ hle hab ih

theorem nodeShapeEq_le_congr :
    ∀ a b x y : LedgerNodeM, NodeShapeEq a b → NodeShapeEq x y →
      strLeB a.nodePath x.nodePath = strLeB b.nodePath y.nodePath := by
  intro a b x y hab hxy
  rw [hab.1, hxy.1]

theorem analyzeStructureM_shape {doc doc' : DocM}
    (h : List.Forall₂ ElemShapeEq doc doc') (pv : String) :
    List.Forall₂ NodeShapeEq (analyzeStructureM doc pv).nodes
      (analyzeStructureM doc' pv).nodes := by
  unfold analyzeStructureM
  exact insertionSort_forall₂ nodeShapeEq_le_congr
    (forall₂_map mkLedgerNode mkLedgerNode_shape h)

theorem jsMapSet_forall₂ {k : String} {v w : LedgerNodeM} (hvw : NodeShapeEq v w) :
    ∀ {m1 m2 : List (String × LedgerNodeM)}, List.Forall₂ EntryShapeEq m1 m2 →
      List.Forall₂ EntryShapeEq (jsMapSet k v m1) (jsMapSet k w m2) := by
  intro m1 m2 h
  induction h with
  | nil => exact List.Forall₂.cons ⟨rfl, hvw⟩ List.Forall₂.nil
  | cons hab hrest ih =>
    rename_i x y t1 t2
    obtain ⟨x1, x2⟩ := x
    obtain ⟨y1, y2⟩ := y
    obtain ⟨hk, hn⟩ := hab
    dsimp only at hk
    unfold jsMapSet
    rw [hk]
    cases hc : y1 == k with
    | true =>
      rw [if_pos rfl, if_pos rfl]
      exact List.Forall₂.cons ⟨rfl, hvw⟩ hrest
    | false =>
      rw [if_neg (by simp), if_neg (by simp)]
      exact List.Forall₂.cons ⟨rfl, hn⟩ ih

theorem jsMapOfList_forall₂ :
    ∀ {l1 l2 : List (String × LedgerNodeM)}, List.Forall₂ EntryShapeEq l1 l2 →
      ∀ {m1 m2 : List (String × LedgerNodeM)}, List.Forall₂ EntryShapeEq m1 m2 →
      List.Forall₂ EntryShapeEq (l1.foldl (fun m e => jsMapSet e.1 e.2 m) m1)
        (l2.foldl (fun m e => jsMapSet e.1 e.2 m) m2) := by
  intro l1 l2 h
  induction h with
  | nil => intro m1 m2 hm; exact hm
  | cons hab hrest ih =>
    rename_i x y t1 t2
    intro m1 m2 hm
    dsimp only [List.foldl]
    obtain ⟨hk, hn⟩ := hab
    rw [hk]
    exact ih (jsMapSet_forall₂ hn hm)

theorem jsMapSet_keys_sub {α : Type} {k x : String} {v : α} :
    ∀ {m : List (String × α)}, x ∈ (jsMapSet k v m).map Prod.fst →
      x = k ∨ x ∈ m.map Prod.fst := by
  intro m
  induction m with
  | nil =>
    intro h
    simp [jsMapSet] at h
    exact Or.inl h
  | cons e rest ih =>
    obtain ⟨k', v'⟩ := e
    intro h
    unfold jsMapSet at h
    by_cases hc : (k' == k) = true
    · rw [if_pos hc] at h
      simp only [List.map_cons, List.mem_cons] at h
      rcases h with h | h
      · exact Or.inl h
      · exact Or.inr (by simp [h])
    · rw [if_neg hc] at h
      simp only [List.map_cons, List.mem_cons] at h
      rcases h with h | h
      · exact Or.inr (by simp [h])
      · rcases ih h with h2 | h2
        · exact Or.inl h2
        · exact Or.inr (by simp [h2])

theorem jsMapSet_keys_nodup {α : Type} {k : String} {v : α} :
    ∀ {m : List (String × α)}, (m.map Prod.fst).Nodup →
      ((jsMapSet k v m).map Prod.fst).Nodup := by
  intro m
  induction m with
  | nil => intro _; simp [jsMapSet]
  | cons e rest ih =>
    obtain ⟨k', v'⟩ := e
    intro h
    rw [List.map_cons, List.nodup_cons] at h
    obtain ⟨hnotin, hrest⟩ := h
    unfold jsMapSet
    by_cases hc : (k' == k) = true
    · rw [if_pos hc]
      rw [List.map_cons, List.nodup_cons]
      have hkk : k' = k := by simpa using hc
      rw [hkk] at hnotin
      exact ⟨hnotin, hrest⟩
    · rw [if_neg hc]
      rw [List.map_cons, List.nodup_cons]
      refine ⟨?_, ih hrest⟩
      intro hmem
      rcases jsMapSet_keys_sub hmem with h2 | h2
      · dsimp only at h2
        rw [h2] at hc
        simp at hc
      · exact hnotin h2

theorem jsMapOfList_keys_nodup {α : Type} :
    ∀ (l : List (String × α)) (m : List (String × α)), (m.map Prod.fst).Nodup →
      ((l.foldl (fun m e => jsMapSet e.1 e.2 m) m).map Prod.fst).Nodup := by
  intro l
  induction l with
  | nil => intro m h; exact h
  | cons e rest ih =>
    intro m h
    dsimp only [List.foldl]
    exact ih _ (jsMapSet_keys_nodup h)

theorem jsMapGet_forall₂ :
    ∀ {m1 m2 : List (String × LedgerNodeM)}, List.Forall₂ EntryShapeEq m1 m2 →
      (m1.map Prod.fst).Nodup →
      ∀ {p : String} {n : LedgerNodeM}, (p, n) ∈ m1 →
      ∃ m, jsMapGet p m2 = some m ∧ NodeShapeEq n m := by
  intro m1 m2 h
  induction h with
  | nil => intro _ p n hmem; simp at hmem
  | cons hab hrest ih =>
    rename_i x y t1 t2
    obtain ⟨x1, x2⟩ := x
    obtain ⟨y1, y2⟩ := y
    obtain ⟨hk, hn⟩ := hab
    dsimp only at hk hn
    intro hnodup p n hmem
    rw [List.map_cons, List.nodup_cons] at hnodup
    obtain ⟨hnotin, hnd⟩ := hnodup
    rw [List.mem_cons] at hmem
    by_cases hpk : p = x1
    · rcases hmem with hmem | hmem
      · injection hmem with h1 h2
        subst h1
        subst h2
        refine ⟨y2, ?_, hn⟩
        unfold jsMapGet
        simp [List.find?, hk]
      · exfalso
        apply hnotin
        rw [← hpk]
        exact List.mem_map.2 ⟨(p, n), hmem, rfl⟩
    · rcases hmem with hmem | hmem
      · exfalso
        injection hmem with h1 h2
        exact hpk h1
      · obtain ⟨m, hget, hshape⟩ := ih hnd hmem
        refine ⟨m, ?_, hshape⟩
        unfold jsMapGet at hget ⊢
        have hne : (y1 == p) = false := by
          rw [← hk]
          simp
          exact fun hh => hpk hh.symm
        simp only [List.find?, hne]
        exact hget

theorem pairs_forall₂ {l1 l2 : List LedgerNodeM} (h : List.Forall₂ NodeShapeEq l1 l2) :
    List.Forall₂ EntryShapeEq (l1.map (fun n => (n.nodePath, n)))
      (l2.map (fun n => (n.nodePath, n))) :=
  forall₂_map (fun n => (n.nodePath, n)) (fun a b hab => ⟨hab.1.symm, hab⟩) h

theorem diff_violations_shape {raw san : StructureLedgerM}
    (h : List.Forall₂ NodeShapeEq raw.nodes san.nodes) :
    ∀ v ∈ (diffStructureLedger raw san).violations,
      ∃ path attr f t, v = "value class change not allowed at " ++ path ++ "." ++ attr ++
        ": " ++ f ++ " -> " ++ t := by
  intro v hv
  have hent : List.Forall₂ EntryShapeEq
      (jsMapOfList (raw.nodes.map (fun n => (n.nodePath, n))))
      (jsMapOfList (san.nodes.map (fun n => (n.nodePath, n)))) :=
    jsMapOfList_forall₂ (pairs_forall₂ h) List.Forall₂.nil
  have hnd : ((jsMapOfList (raw.nodes.map (fun n => (n.nodePath, n)))).map Prod.fst).Nodup :=
    jsMapOfList_keys_nodup _ [] (by simp)
  simp only [diffStructureLedger] at hv
  rw [List.mem_flatten] at hv
  obtain ⟨vs, hvs, hvin⟩ := hv
  rw [List.mem_map] at hvs
  obtain ⟨entry, hentry, rfl⟩ := hvs
  obtain ⟨p, n⟩ := entry
  obtain ⟨m, hget, hshape⟩ := jsMapGet_forall₂ hent hnd hentry
  unfold nodeViolations at hvin
  rw [hget] at hvin
  dsimp only at hvin
  rw [if_neg (by rw [hshape.2.1]; exact fun hh => hh rfl)] at hvin
  rw [List.nil_append] at hvin
  unfold attrViolations at hvin
  rw [List.mem_flatten] at hvin
  obtain ⟨ws, hws, hvw⟩ := hvin
  rw [List.mem_map] at hws
  obtain ⟨attr, hattr, rfl⟩ := hws
  have hcont : m.attributesPresent.contains attr = true := by
    rw [hshape.2.2]
    exact List.elem_iff.2 hattr
  rw [hcont] at hvw
  rw [if_neg (by simp)] at hvw
  dsimp only at hvw
  by_cases hallow : isTransitionAllowed
      ((n.attributeValueClass.find? (·.1 == attr)).map (·.2))
      ((m.attributeValueClass.find? (·.1 == attr)).map (·.2)) = true
  · rw [hallow, if_neg (by simp)] at hvw
    simp at hvw
  · rw [Bool.not_eq_true] at hallow
    rw [hallow] at hvw
    rw [if_pos (by simp)] at hvw
    rw [List.mem_singleton] at hvw
    exact ⟨p, attr, _, _, hvw⟩

/-- Claim C1 (amended): sanitization preserves every node path, tag name and
attribute-key set, so for every document and valid source URL, when
sanitizeHtmlForFixture returns without throwing the ledger diff contains no
missing-node, tag-mismatch or missing-attribute violation — every violation it
can report is a value-class-change violation at some attribute. Zero violations
is not guaranteed (see the counterexample). -/
theorem claimC1_ledger_diff :
    ∀ (doc : DocM) (url pv : String) (res : SanitizationResultM),
      sanitizeHtmlForFixtureM doc url pv = .ok res →
      ∀ v ∈ (diffStructureLedger res.rawLedger res.sanitizedLedger).violations,
        ∃ path attr f t, v = "value class change not allowed at " ++ path ++ "." ++ attr ++
          ": " ++ f ++ " -> " ++ t := by
  intro doc url pv res hok
  unfold sanitizeHtmlForFixtureM at hok
  cases hu : jsUrlValid url with
  | false =>
    rw [hu] at hok
    rw [if_pos (by decide)] at hok
    exact Except.noConfusion hok
  | true =>
    rw [hu] at hok
    rw [if_neg (by decide)] at hok
    dsimp only at hok
    injection hok with hres
    rw [← hres]
    exact diff_violations_shape
      (analyzeStructureM_shape (sanitizeDocM_shape doc createPlaceholderStore) pv)

/-- Claim C1 counterexample: a document holding an email-like content attribute
sanitizes successfully to a value of a different class, so the ledger diff of a
successful sanitization can carry a violation. -/
theorem claimC1_counterexample :
    ¬ (∀ (doc : DocM) (url pv : String) (res : SanitizationResultM),
        sanitizeHtmlForFixtureM doc url pv = .ok res →
        (diffStructureLedger res.rawLedger res.sanitizedLedger).violations = []) := by
  intro h
  have hv := h c1doc "https://example.com/" "v1" c1san (by rfl)
  exact absurd hv (by decide)

/-- Witness for claim C1 at the concrete counterexample document: its single
violation has the value-class-change shape. -/
theorem claimC1_witness :
    ∃ path attr f t,
      "value class change not allowed at /body[1]/div[1].content: email_like -> plain_text" =
        "value class change not allowed at " ++ path ++ "." ++ attr ++ ": " ++ f ++
          " -> " ++ t :=
  claimC1_ledger_diff c1doc "https://example.com/" "v1" c1san (by rfl)
    "value class change not allowed at /body[1]/div[1].content: email_like -> plain_text"
    (by decide)
